import Mathlib

/-!
# Verification of the TabFern item model (`view/model.js`)

This file embeds the item-consistency layer of the repository: the routines
of `view/model.js` that keep a tree of window/tab nodes (the Tree View,
backed externally by jstree) synchronized with a keyed store of detail
records (the Keyed Store, backed externally by the `item_details` multidex),
plus the merge-detection hash built on the external `blake2s` library.

External collaborators (jstree, the multidex store, the BLAKE2s library,
the HTML escaper) are not part of the repository sources; they are modelled
from the specification of their interfaces (spec §6) with value semantics.
All functions of `view/model.js` itself are translated statement by
statement from the source.
-/

namespace TabFern

/-! ## Machine arithmetic helpers (32-bit words as `Nat` mod 2^32) -/

/-- Truncate to a 32-bit word. -/
def w32 (n : Nat) : Nat := n % 4294967296

/-- 32-bit wrapping addition. -/
def wadd (a b : Nat) : Nat := w32 (a + b)

/-- 32-bit rotate right by `r` (inputs assumed `< 2^32`). -/
def rotr (x r : Nat) : Nat := w32 ((x >>> r) ||| (x <<< (32 - r)))

/-! ## BLAKE2s-256 (RFC 7693)

Modelled from the spec: the repository imports the external `blake2s`
JavaScript library (`new BLAKE2s(32)`, `update`, `hexDigest`); the spec
(§4.4) identifies it as "a cryptographic hash (BLAKE2s, 256-bit)".  The
definition below is standard BLAKE2s-256 (unkeyed) per RFC 7693; it is
validated against the RFC/`hashlib` test vectors in the theorems. -/

/-- BLAKE2s initialization vector. -/
def blakeIV : List Nat :=
  [0x6A09E667, 0xBB67AE85, 0x3C6EF372, 0xA54FF53A,
   0x510E527F, 0x9B05688C, 0x1F83D9AB, 0x5BE0CD19]

/-- The ten BLAKE2s message schedules. -/
def blakeSigma : List (List Nat) :=
  [[0, 1, 2, 3, 4, 5, 6, 7, 8, 9, 10, 11, 12, 13, 14, 15],
   [14, 10, 4, 8, 9, 15, 13, 6, 1, 12, 0, 2, 11, 7, 5, 3],
   [11, 8, 12, 0, 5, 2, 15, 13, 10, 14, 3, 6, 7, 1, 9, 4],
   [7, 9, 3, 1, 13, 12, 11, 14, 2, 6, 5, 10, 4, 0, 15, 8],
   [9, 0, 5, 7, 2, 4, 10, 15, 14, 1, 11, 12, 6, 8, 3, 13],
   [2, 12, 6, 10, 0, 11, 8, 3, 4, 13, 7, 5, 15, 14, 1, 9],
   [12, 5, 1, 15, 14, 13, 4, 10, 0, 7, 6, 3, 9, 2, 8, 11],
   [13, 11, 7, 14, 12, 1, 3, 9, 5, 0, 15, 4, 8, 6, 2, 10],
   [6, 15, 14, 9, 11, 3, 0, 8, 12, 2, 13, 7, 1, 4, 10, 5],
   [10, 2, 8, 4, 7, 6, 1, 5, 15, 11, 9, 14, 3, 12, 13, 0]]

/-- Indexed read from a word vector (out of range reads 0). -/
def lget (v : List Nat) (i : Nat) : Nat := v.getD i 0

/-- The BLAKE2s `G` mixing function acting on work vector `v`
at indices `a b c d` with message words `x y`. -/
def blakeG (v : List Nat) (a b c d x y : Nat) : List Nat :=
  let va := wadd (wadd (lget v a) (lget v b)) x
  let vd := rotr ((lget v d) ^^^ va) 16
  let vc := wadd (lget v c) vd
  let vb := rotr ((lget v b) ^^^ vc) 12
  let va' := wadd (wadd va vb) y
  let vd' := rotr (vd ^^^ va') 8
  let vc' := wadd vc vd'
  let vb' := rotr (vb ^^^ vc') 7
  (((v.set a va').set b vb').set c vc').set d vd'

/-- One BLAKE2s round: eight `G` applications under schedule `s`. -/
def blakeRound (m : List Nat) (v : List Nat) (s : List Nat) : List Nat :=
  let mi := fun i => lget m (lget s i)
  let v1 := blakeG v 0 4 8 12 (mi 0) (mi 1)
  let v2 := blakeG v1 1 5 9 13 (mi 2) (mi 3)
  let v3 := blakeG v2 2 6 10 14 (mi 4) (mi 5)
  let v4 := blakeG v3 3 7 11 15 (mi 6) (mi 7)
  let v5 := blakeG v4 0 5 10 15 (mi 8) (mi 9)
  let v6 := blakeG v5 1 6 11 12 (mi 10) (mi 11)
  let v7 := blakeG v6 2 7 8 13 (mi 12) (mi 13)
  blakeG v7 3 4 9 14 (mi 14) (mi 15)

/-- BLAKE2s compression function `F(h, m, t, f)`. -/
def blakeCompress (h m : List Nat) (t : Nat) (f : Bool) : List Nat :=
  let v0 := h ++ blakeIV
  let v1 := v0.set 12 ((lget v0 12) ^^^ (w32 t))
  let v2 := v1.set 13 ((lget v1 13) ^^^ (w32 (t >>> 32)))
  let v3 := if f then v2.set 14 ((lget v2 14) ^^^ 0xFFFFFFFF) else v2
  let v := blakeSigma.foldl (fun w s => blakeRound m w s) v3
  (List.range 8).map (fun i => (lget h i) ^^^ (lget v i) ^^^ (lget v (i + 8)))

/-- Little-endian packing of a byte list into 32-bit words
(a trailing partial group is zero-extended). -/
def leWords : List Nat → List Nat
  | a :: b :: c :: d :: rest =>
      (a + 256 * b + 65536 * c + 16777216 * d) :: leWords rest
  | [] => []
  | [a] => [a]
  | [a, b] => [a + 256 * b]
  | [a, b, c] => [a + 256 * b + 65536 * c]

/-- Hash loop: consume the message 64 bytes at a time; `done'` counts the
bytes already compressed.  The final (≤ 64 byte) block is zero-padded and
compressed with the finalization flag set.  `fuel` is structural recursion
fuel; callers pass `msg.length + 1`, which always suffices since every
recursive step removes 64 bytes. -/
def blakeLoop (fuel : Nat) (h : List Nat) (msg : List Nat) (done' : Nat) :
    List Nat :=
  match fuel with
  | 0 => h
  | fuel' + 1 =>
    if msg.length ≤ 64 then
      blakeCompress h (leWords (msg ++ List.replicate (64 - msg.length) 0))
        (done' + msg.length) true
    else
      blakeLoop fuel' (blakeCompress h (leWords (msg.take 64)) (done' + 64) false)
        (msg.drop 64) (done' + 64)

/-- Little-endian byte expansion of one 32-bit word. -/
def wordLEBytes (w : Nat) : List Nat :=
  [w % 256, (w >>> 8) % 256, (w >>> 16) % 256, (w >>> 24) % 256]

/-- Hexadecimal digit characters. -/
def hexDigit (n : Nat) : Char := "0123456789abcdef".toList.getD n '0'

/-- Lowercase hex string of a byte list. -/
def bytesToHex (bs : List Nat) : String :=
  String.mk (bs.flatMap (fun b => [hexDigit (b / 16), hexDigit (b % 16)]))

/-- BLAKE2s-256 (unkeyed) of a byte sequence, as a lowercase hex string. -/
def blake2s256Hex (msg : List Nat) : String :=
  let h0 := blakeIV.set 0 ((lget blakeIV 0) ^^^ 0x01010020)
  bytesToHex ((blakeLoop (msg.length + 1) h0 msg 0).flatMap wordLEBytes)

/-! ## UTF-8 encoding

The source hashes `Buffer.from(str + '\0', 'utf8')`, i.e. the UTF-8 bytes
of each string.  Standard UTF-8 encoding of a Unicode scalar value. -/

/-- UTF-8 encoding of one character. -/
def utf8Char (c : Char) : List Nat :=
  let n := c.toNat
  if n < 0x80 then [n]
  else if n < 0x800 then
    [0xC0 ||| (n >>> 6), 0x80 ||| (n &&& 0x3F)]
  else if n < 0x10000 then
    [0xE0 ||| (n >>> 12), 0x80 ||| ((n >>> 6) &&& 0x3F), 0x80 ||| (n &&& 0x3F)]
  else
    [0xF0 ||| (n >>> 18), 0x80 ||| ((n >>> 12) &&& 0x3F),
     0x80 ||| ((n >>> 6) &&& 0x3F), 0x80 ||| (n &&& 0x3F)]

/-- UTF-8 bytes of a string. -/
def strUtf8 (s : String) : List Nat := s.toList.flatMap utf8Char

/-- `module.orderedHashOfStrings(strs)` (`view/model.js` lines 315-324):
hash the strings together, feeding each string's UTF-8 bytes followed by a
single NUL byte into one BLAKE2s-256 state, and return the hex digest. -/
def orderedHashOfStrings (strs : List String) : String :=
  blake2s256Hex ((strs.map (fun s => strUtf8 s ++ [0])).flatMap id)

/-! ## The `(Unsaved)` marker regex

`remove_unsaved_markers` (`view/model.js` lines 177-187) matches the
JavaScript regex `/(\s+\(Unsaved\)){1,}\s*$/i` against the string and, when
the leftmost match starts at a positive index, truncates the string there.
We model the regex language exactly: a match at position `i` exists iff the
suffix from `i` is `(ws+ lit)+ ws*` where `lit` is `"(unsaved)"`
case-insensitively and `ws` is a JavaScript `\s` character; the JS engine
scans candidate start positions left to right, so `match.index` is the least
index whose suffix is in the language. -/

/-- JavaScript `\s` (the character class used by the regex): ASCII
whitespace, NBSP, the Unicode space separators, line/paragraph separator,
and the BOM. -/
def isSpaceJS (c : Char) : Bool :=
  c = ' ' || c = '\t' || c = '\n' || c = '\u000B' || c = '\u000C' ||
  c = '\r' || c.toNat = 0xA0 || c.toNat = 0x1680 ||
  (0x2000 ≤ c.toNat && c.toNat ≤ 0x200A) ||
  c.toNat = 0x2028 || c.toNat = 0x2029 || c.toNat = 0x202F ||
  c.toNat = 0x205F || c.toNat = 0x3000 || c.toNat = 0xFEFF

/-- The literal `"(unsaved)"`, the lowercase image of the marker. -/
def unsavedLit : List Char := ['(', 'u', 'n', 's', 'a', 'v', 'e', 'd', ')']

/-- Consume the literal `lit` case-insensitively from the front of `cs`;
return the remainder on success. -/
def stripLit : List Char → List Char → Option (List Char)
  | [], cs => some cs
  | _ :: _, [] => none
  | l :: ls, c :: cs => if c.toLower = l then stripLit ls cs else none

/-- Does `cs` belong to `(ws+ lit)+ ws*`?  `fuel` is structural recursion
fuel; every group consumes at least 10 characters, so `cs.length + 1`
always suffices. -/
def unsGroups (fuel : Nat) (cs : List Char) : Bool :=
  match fuel with
  | 0 => false
  | fuel' + 1 =>
    let sp := cs.takeWhile isSpaceJS
    let rest := cs.dropWhile isSpaceJS
    if sp.isEmpty then false
    else
      match stripLit unsavedLit rest with
      | none => false
      | some rest2 => rest2.all isSpaceJS || unsGroups fuel' rest2

/-- Whole-suffix match: `cs ∈ (ws+ lit)+ ws*`. -/
def unsMatch (cs : List Char) : Bool := unsGroups (cs.length + 1) cs

/-- Index of the leftmost regex match (`match.index` in JS): the least `i`
such that the suffix of `cs` from `i` is in the language, if any.  (The
empty suffix never matches, since a group needs at least 10 characters.) -/
def matchIndex : List Char → Option Nat
  | [] => none
  | c :: cs =>
    if unsMatch (c :: cs) then some 0 else (matchIndex cs).map (· + 1)

/-- `module.remove_unsaved_markers(str)` (`view/model.js` lines 177-187).
A falsy argument (`null`/`undefined`, modelled by `none`, or the empty
string) is returned unchanged; otherwise, when the regex matches at a
positive index the string is truncated there, else returned unchanged. -/
def remove_unsaved_markers : Option String → Option String
  | none => none
  | some s =>
    if s = "" then some s
    else
      match matchIndex s.toList with
      | some i => if 0 < i then some (String.mk (s.toList.take i)) else some s
      | none => some s

/-- String-level convenience wrapper: the source always receives a string
in the call sites we model; `rumStr` is `remove_unsaved_markers` on it. -/
def rumStr (s : String) : String :=
  match remove_unsaved_markers (some s) with
  | some r => r
  | none => s

/-! ## Data model

Constants from `view/const.js` and the record shapes of the Keyed Store
(`item_details`, modelled from spec §3/§6: two indexed collections of
window records and tab records, keyed by `node_id`, with a secondary hash
key for windows). -/

/-- `K.NONE` = `chrome.windows.WINDOW_ID_NONE` (the browser's "no window"
sentinel, -2). -/
def NONE : Int := -2

abbrev NodeId := String

/-- `K.IT_WIN` / `K.IT_TAB`: base item kinds. -/
inductive ItemTy
  | win
  | tab
deriving Repr, DecidableEq

/-- `K.NST_OPEN`: subtype tag for open items. -/
def NST_OPEN : String := "open"

/-- `K.NST_SAVED`: subtype tag for saved items. -/
def NST_SAVED : String := "saved"

/-- `K.IT_WIN` as a multitype tag string. -/
def IT_WIN_TAG : String := "win"

/-- `K.IT_TAB` as a multitype tag string. -/
def IT_TAB_TAG : String := "tab"

/-- A live Chrome window handle (only its id is relevant to the model). -/
structure CWin where
  id : Int
deriving Repr, DecidableEq

/-- A live Chrome tab handle, with the fields `markTabAsOpen` copies. -/
structure CTab where
  id : Int
  windowId : Int
  index : Int
  url : String
  title : String
  favIconUrl : Option String
  pinned : Bool
deriving Repr, DecidableEq

/-- A window detail record (the fields `vnRezWin` creates and the
operations mutate).  `none` models JavaScript `null`/`undefined`. -/
structure WinVal where
  win_id : Int
  node_id : NodeId
  win : Option CWin
  raw_title : Option String
  raw_bullet : Option String
  isOpen : Bool
  keep : Option Bool
  ordered_url_hash : Option String
deriving Repr, DecidableEq

/-- A tab detail record. -/
structure TabVal where
  tab_id : Int
  node_id : NodeId
  win_id : Int
  index : Int
  tab : Option CTab
  isOpen : Bool
  isPinned : Bool
  raw_url : Option String
  raw_title : Option String
  raw_favicon_url : Option String
  raw_bullet : Option String
deriving Repr, DecidableEq

/-- A detail record of either kind. -/
abbrev Val := Sum WinVal TabVal

/-- A Tree View node (modelled from spec §6: id, parent, ordered children,
label, icon, subtype tags, expansion state).  `icon = none` is the
widget's default icon (`set_icon(node, true)` in jstree). -/
structure TreeNode where
  id : NodeId
  parent : NodeId
  children : List NodeId
  text : String
  icon : Option String
  multitypes : List String
  opened : Bool
deriving Repr, DecidableEq

/-- The Tree View: a node list plus a counter for fresh node ids. -/
structure Tree where
  nodes : List TreeNode
  counter : Nat
deriving Repr, DecidableEq

/-- The id of the invisible jstree root (`$.jstree.root`). -/
def jstreeRoot : NodeId := "#"

/-- `T.treeobj.get_node`: find a node by id. -/
def get_node (t : Tree) (n : NodeId) : Option TreeNode :=
  t.nodes.find? (fun nd => nd.id = n)

/-- Fresh node id for `create_node`. -/
def freshId (t : Tree) : NodeId := "tfnode" ++ toString t.counter

/-- Insertion position for `create_node`: a numeric index or `'last'`. -/
inductive InsertPos
  | pos (i : Nat)
  | last
deriving Repr, DecidableEq

/-- Insert `x` into a children list at the given position. -/
def insertAt (l : List NodeId) (p : InsertPos) (x : NodeId) : List NodeId :=
  match p with
  | InsertPos.pos i => l.take i ++ x :: l.drop i
  | InsertPos.last => l ++ [x]

/-- `T.treeobj.create_node(parent, data, position)` (modelled from spec §6):
returns the new node's id, or fails (`false` in jstree) when the parent
does not resolve or the id cannot be used. -/
def create_node (t : Tree) (par : NodeId) (text : String) (p : InsertPos) :
    Option (NodeId × Tree) :=
  match get_node t par with
  | none => none
  | some parNode =>
    let nid := freshId t
    if t.nodes.any (fun nd => nd.id = nid) then none
    else
      let newNode : TreeNode :=
        { id := nid, parent := par, children := [], text := text,
          icon := none, multitypes := [], opened := false }
      let newChildren := insertAt parNode.children p nid
      some (nid,
        { nodes := (t.nodes.map (fun nd =>
            if nd.id = par then { nd with children := newChildren } else nd)) ++ [newNode],
          counter := t.counter + 1 })

/-- Ids of the subtree rooted at the nodes of `frontier` (breadth bounded
by `fuel`; callers pass `t.nodes.length + 1`, which covers every
well-formed tree). -/
def subtreeIds (t : Tree) : Nat → List NodeId → List NodeId
  | 0, _ => []
  | _, [] => []
  | fuel + 1, n :: rest =>
    let kids := match get_node t n with | some nd => nd.children | none => []
    n :: subtreeIds t fuel (kids ++ rest)

/-- `T.treeobj.delete_node` (modelled from spec §6): remove the node and
its whole subtree, and unlink the removed ids from every children list. -/
def delete_node (t : Tree) (n : NodeId) : Tree :=
  match get_node t n with
  | none => t
  | some _ =>
    let doomed := subtreeIds t (t.nodes.length + 1) [n]
    let kept := t.nodes.filter (fun nd => !(doomed.contains nd.id))
    let pruned := kept.map (fun nd =>
      { nd with children := nd.children.filter (fun c => !(doomed.contains c)) })
    { t with nodes := pruned }

/-- Map the node with id `n` through `f`. -/
def mapNode (t : Tree) (n : NodeId) (f : TreeNode → TreeNode) : Tree :=
  { t with nodes := t.nodes.map (fun nd => if nd.id = n then f nd else nd) }

/-- `T.treeobj.rename_node(node_id, markup)`. -/
def rename_node (t : Tree) (n : NodeId) (text : String) : Tree :=
  mapNode t n (fun nd => { nd with text := text })

/-- `T.treeobj.set_icon(node, icon)` (`none` = the default icon `true`). -/
def set_icon (t : Tree) (n : NodeId) (icon : Option String) : Tree :=
  mapNode t n (fun nd => { nd with icon := icon })

/-- `T.treeobj.open_node(node_id)`: expand the node. -/
def open_node (t : Tree) (n : NodeId) : Tree :=
  mapNode t n (fun nd => { nd with opened := true })

/-- `T.treeobj.add_multitype(node_id, ty)`. -/
def add_multitype (t : Tree) (n : NodeId) (ty : String) : Tree :=
  mapNode t n (fun nd =>
    if nd.multitypes.contains ty then nd
    else { nd with multitypes := nd.multitypes ++ [ty] })

/-- `T.treeobj.del_multitype(node_id, ty)`. -/
def del_multitype (t : Tree) (n : NodeId) (ty : String) : Tree :=
  mapNode t n (fun nd =>
    { nd with multitypes := nd.multitypes.filter (fun s => s ≠ ty) })

/-- The Keyed Store `D` (modelled from spec §6): the window collection and
the tab collection, in insertion order (so secondary-key lookups are
first-writer-wins). -/
structure Details where
  windows : List WinVal
  tabs : List TabVal
deriving Repr, DecidableEq

/-- `D.windows.by_node_id`. -/
def winByNodeId (d : Details) (n : NodeId) : Option WinVal :=
  d.windows.find? (fun w => w.node_id = n)

/-- `D.tabs.by_node_id`. -/
def tabByNodeId (d : Details) (n : NodeId) : Option TabVal :=
  d.tabs.find? (fun tb => tb.node_id = n)

/-- `D.windows.by_ordered_url_hash`: the first window holding the hash. -/
def winByOrderedUrlHash (d : Details) (h : String) : Option WinVal :=
  d.windows.find? (fun w => w.ordered_url_hash = some h)

/-- `D.val_by_node_id`: search both collections (windows first). -/
def valByNodeId (d : Details) (n : NodeId) : Option Val :=
  match winByNodeId d n with
  | some w => some (Sum.inl w)
  | none =>
    match tabByNodeId d n with
    | some tb => some (Sum.inr tb)
    | none => none

/-- `D.windows.add(fields)` (modelled from spec §6): keyed insert; fails
(`false`) when the key is already taken. -/
def winsAdd (d : Details) (w : WinVal) : Option Details :=
  if d.windows.any (fun w' => w'.node_id = w.node_id) then none
  else some { d with windows := d.windows ++ [w] }

/-- `D.tabs.add(fields)` (modelled from spec §6). -/
def tabsAdd (d : Details) (tb : TabVal) : Option Details :=
  if d.tabs.any (fun tb' => tb'.node_id = tb.node_id) then none
  else some { d with tabs := d.tabs ++ [tb] }

/-- Update the window record keyed by `n` (covers both `change_key` and
the in-place field assignments of the source, which mutate the same
record object the store indexes). -/
def winsSet (d : Details) (n : NodeId) (f : WinVal → WinVal) : Details :=
  { d with windows := d.windows.map (fun w => if w.node_id = n then f w else w) }

/-- Update the tab record keyed by `n`. -/
def tabsSet (d : Details) (n : NodeId) (f : TabVal → TabVal) : Details :=
  { d with tabs := d.tabs.map (fun tb => if tb.node_id = n then f tb else tb) }

/-- `D.windows.remove_value(val)`. -/
def winsRemove (d : Details) (n : NodeId) : Details :=
  { d with windows := d.windows.filter (fun w => w.node_id ≠ n) }

/-- `D.tabs.remove_value(val)`. -/
def tabsRemove (d : Details) (n : NodeId) : Details :=
  { d with tabs := d.tabs.filter (fun tb => tb.node_id ≠ n) }

/-- The whole model: Tree View plus Keyed Store. -/
structure Model where
  tree : Tree
  details : Details
deriving Repr, DecidableEq

/-! ## Reference Resolver (`vn_by_vorny`)

A "vorny" is any of the reference shapes accepted by the source: a falsy
value, a node-id string, a jstree node record (shape with `id` and
`parent`), or a details record (shape with `ty`).  The dynamic
shape-sniffing of the source becomes a sum type here (spec §9 recommends
exactly this reimplementation). -/

inductive Vorny
  | vnone
  | nid (s : String)
  | jsnode (id : NodeId) (parent : NodeId)
  | wval (v : WinVal)
  | tval (v : TabVal)
deriving Repr, DecidableEq

/-- A `{val, node_id}` pair. -/
structure VN where
  val : Option Val
  node_id : NodeId
deriving Repr, DecidableEq

/-- `module.VN_NONE`: the shared sentinel with both members falsy. -/
def VN_NONE : VN := { val := none, node_id := "" }

/-- JavaScript truthiness of a vorny argument (`!vorny`): the null
reference and the empty string are falsy; objects are always truthy. -/
def vornyFalsy : Vorny → Bool
  | Vorny.vnone => true
  | Vorny.nid s => s = ""
  | _ => false

/-- `module.vn_by_vorny(val_or_nodey, item_type)` (`view/model.js` lines
66-96).  A string is looked up by node id (restricted to the given kind's
collection when one is supplied); a jstree node is looked up generically
by its id; a details record supplies itself, failing if it carries no
`node_id`; anything else yields `VN_NONE`. -/
def vn_by_vorny (m : Model) (vorny : Vorny) (ity : Option ItemTy) : VN :=
  match vorny with
  | Vorny.vnone => VN_NONE
  | Vorny.nid s =>
    if s = "" then VN_NONE
    else
      match ity with
      | some ItemTy.win =>
        { val := (winByNodeId m.details s).map Sum.inl, node_id := s }
      | some ItemTy.tab =>
        { val := (tabByNodeId m.details s).map Sum.inr, node_id := s }
      | none => { val := valByNodeId m.details s, node_id := s }
  | Vorny.jsnode id par =>
    if id ≠ "" ∧ par ≠ "" then { val := valByNodeId m.details id, node_id := id }
    else VN_NONE
  | Vorny.wval v =>
    if v.node_id = "" then VN_NONE
    else { val := some (Sum.inl v), node_id := v.node_id }
  | Vorny.tval v =>
    if v.node_id = "" then VN_NONE
    else { val := some (Sum.inr v), node_id := v.node_id }

/-! ## Presentation Deriver -/

/-- `K.BULLET_CLASS` (`view/const.js`). -/
def BULLET_CLASS : String := "tf-bullet"

/-- One character of `Esc.escape` (modelled from spec §4.3: the external
`justhtmlescape` escaper; the HTML-significant characters are replaced by
entities). -/
def escChar (c : Char) : String :=
  if c = '&' then "&amp;"
  else if c = '<' then "&lt;"
  else if c = '>' then "&gt;"
  else if c = '"' then "&quot;"
  else if c = '\'' then "&#39;"
  else String.mk [c]

/-- `Esc.escape` (modelled from spec §4.3). -/
def escapeHTML (s : String) : String := String.join (s.toList.map escChar)

/-- `module.get_win_raw_text(val)` (`view/model.js` lines 139-148). -/
def get_win_raw_text (v : WinVal) : String :=
  match v.raw_title with
  | some t => t
  | none => if v.keep = some true then "Saved tabs" else "Unsaved"

/-- The raw text of a val of either kind, as read by `get_html_label` via
`get_win_raw_text` (a tab record has no `keep` field, so the `val.keep`
test is falsy for tabs). -/
def valRawText : Val → String
  | Sum.inl w => get_win_raw_text w
  | Sum.inr tb =>
    match tb.raw_title with
    | some t => t
    | none => "Unsaved"

/-- `val.isPinned` as read by `get_html_label` (undefined, hence falsy,
on window records). -/
def valIsPinned : Val → Bool
  | Sum.inl _ => false
  | Sum.inr tb => tb.isPinned

/-- `val.raw_bullet` of a val of either kind. -/
def valRawBullet : Val → Option String
  | Sum.inl w => w.raw_bullet
  | Sum.inr tb => tb.raw_bullet

/-- `module.get_html_label(val)` (`view/model.js` lines 193-218). -/
def get_html_label (v : Val) : String :=
  let pin := if valIsPinned v then "&#x1f4cc;&nbsp;" else ""
  let raw_text := valRawText v
  let bullet :=
    match valRawBullet v with
    | some b =>
      if b = "" then ""
      else
        "<span class=\"" ++ BULLET_CLASS ++ "\">" ++ escapeHTML b ++
          (if raw_text ≠ "" ∧ raw_text ≠ "\uFEFF" then " &#x2726; " else "") ++
          "</span>"
    | none => ""
  pin ++ bullet ++ escapeHTML raw_text

/-- `module.refresh_label(node_id)` (`view/model.js` lines 226-233):
re-derive and re-apply the node label; no change when the id or the
record does not resolve. -/
def refresh_label (m : Model) (nid : NodeId) : Model :=
  if nid = "" then m
  else
    match valByNodeId m.details nid with
    | none => m
    | some v => { m with tree := rename_node m.tree nid (get_html_label v) }

/-- Does `raw_url` match `/\.pdf$/i`?  (An absent `raw_url` stringifies to
`"undefined"` in the source, which does not match.) -/
def urlPdf : Option String → Bool
  | some u => u.toLower.endsWith ".pdf"
  | none => false

/-- The icon key chosen by `refresh_icon` (`view/model.js` lines 243-266);
`none` is the widget's default icon (`true` in the source, used for closed
windows).  `encodeURI` is modelled as the identity on the favicon URL. -/
def iconForVal : Val → Option String
  | Sum.inr tb =>
    match tb.raw_favicon_url with
    | some u =>
      if u ≠ "" then some u
      else if urlPdf tb.raw_url then some "fff-page-white-with-red-banner"
      else some "fff-page"
    | none =>
      if urlPdf tb.raw_url then some "fff-page-white-with-red-banner"
      else some "fff-page"
  | Sum.inl w =>
    if w.isOpen && w.keep = some true then some "fff-monitor-add"
    else if w.isOpen then some "fff-monitor"
    else none

/-- `module.refresh_icon(vorny)` (`view/model.js` lines 238-276). -/
def refresh_icon (m : Model) (vorny : Vorny) : Model :=
  let vn := vn_by_vorny m vorny none
  match vn.val, get_node m.tree vn.node_id with
  | some v, some _ =>
    if vn.node_id = "" then m
    else { m with tree := set_icon m.tree vn.node_id (iconForVal v) }
  | _, _ => m

/-! ## Item manipulation

The source mutates detail records in place through the alias the store
indexes; the model applies the same field updates through the store keyed
by `node_id`, which coincides with the source whenever the passed record
is the store's record (the multidex keying invariant).  Operations that in
the source would act on a kind-mismatched record reference (e.g. a tab
record passed where a window is expected, which the source's dynamic check
does not rule out) are outside this model and return failure. -/

/-- `module.mark_win_as_unsaved(val, adjust_title)` (`view/model.js`
lines 154-170). -/
def mark_win_as_unsaved (m : Model) (val : Option Val) (adjust_title : Bool) :
    Model × Bool :=
  match val with
  | some (Sum.inl w) =>
    if w.node_id = "" then (m, false)
    else
      let d1 := winsSet m.details w.node_id (fun w' => { w' with keep := some false })
      let m1 : Model := { m with details := d1 }
      let m2 : Model := { m1 with tree := del_multitype m1.tree w.node_id NST_SAVED }
      let newTitle := some (rumStr (w.raw_title.getD "") ++ " (Unsaved)")
      let d3 := winsSet m2.details w.node_id
        (fun w' => { w' with raw_title := newTitle })
      let m3 : Model :=
        if adjust_title ∧ w.raw_title ≠ none then { m2 with details := d3 }
        else m2
      let m4 := refresh_label m3 w.node_id
      (refresh_icon m4 (Vorny.nid w.node_id), true)
  | _ => (m, false)

/-- `module.remember(win_node_id, cleanup_title)` (`view/model.js` lines
283-299).  Note the source reads `get_win_raw_text(val)` after having set
`val.keep`, so a null title becomes the "Saved tabs" default. -/
def remember (m : Model) (win_node_id : NodeId) (cleanup_title : Bool) :
    Model × Bool :=
  if win_node_id = "" then (m, false)
  else
    match winByNodeId m.details win_node_id with
    | none => (m, false)
    | some val =>
      let d1 := winsSet m.details win_node_id (fun w => { w with keep := some true })
      let m1 : Model := { m with details := d1 }
      let m2 : Model := { m1 with tree := add_multitype m1.tree win_node_id NST_SAVED }
      let newTitle := some (rumStr (get_win_raw_text { val with keep := some true }))
      let d3 := winsSet m2.details win_node_id
        (fun w => { w with raw_title := newTitle })
      let m3 : Model :=
        if cleanup_title then { m2 with details := d3 }
        else m2
      let m4 := refresh_label m3 win_node_id
      (refresh_icon m4 (Vorny.nid win_node_id), true)

/-! ## Adding model items -/

/-- `module.vnRezWin(isFirstChild)` (`view/model.js` lines 381-411): create
the tree node first (position 1 places it right after the holding pen),
then the store record; roll the node back if the insert fails. -/
def vnRezWin (m : Model) (isFirstChild : Bool) : Model × VN :=
  match create_node m.tree jstreeRoot "Window"
      (if isFirstChild then InsertPos.pos 1 else InsertPos.last) with
  | none => (m, VN_NONE)
  | some (node_id, t1) =>
    let t2 := add_multitype t1 node_id IT_WIN_TAG
    let newVal : WinVal :=
      { win_id := NONE, node_id := node_id, win := none, raw_title := none,
        raw_bullet := none, isOpen := false, keep := none,
        ordered_url_hash := none }
    match winsAdd m.details newVal with
    | none => ({ m with tree := delete_node t2 node_id }, VN_NONE)
    | some d1 =>
      let m1 : Model := { tree := t2, details := d1 }
      let m2 := refresh_label m1 node_id
      (refresh_icon m2 (Vorny.nid node_id), { val := some (Sum.inl newVal), node_id := node_id })

/-- `module.vnRezTab(vornyParent)` (`view/model.js` lines 420-456). -/
def vnRezTab (m : Model) (vornyParent : Vorny) : Model × VN :=
  let pvn := vn_by_vorny m vornyParent none
  match pvn.val with
  | none => (m, VN_NONE)
  | some _ =>
    if pvn.node_id = "" then (m, VN_NONE)
    else
      match get_node m.tree pvn.node_id with
      | none => (m, VN_NONE)
      | some _ =>
        match create_node m.tree pvn.node_id "Tab" InsertPos.last with
        | none => (m, VN_NONE)
        | some (node_id, t1) =>
          let t2 := add_multitype t1 node_id IT_TAB_TAG
          let newVal : TabVal :=
            { tab_id := NONE, node_id := node_id, win_id := NONE,
              index := NONE, tab := none, isOpen := false, isPinned := false,
              raw_url := none, raw_title := none, raw_favicon_url := none,
              raw_bullet := none }
          match tabsAdd m.details newVal with
          | none => ({ m with tree := delete_node t2 node_id }, VN_NONE)
          | some d1 =>
            let m1 : Model := { tree := t2, details := d1 }
            let m2 := refresh_label m1 node_id
            (refresh_icon m2 (Vorny.nid node_id),
              { val := some (Sum.inr newVal), node_id := node_id })

/-! ## Attaching / detaching Chrome widgets -/

/-- `module.markWinAsOpen(win_vorny, cwin)` (`view/model.js` lines
503-535).  Re-marking an already-open window is refused (informational
log only) before any mutation. -/
def markWinAsOpen (m : Model) (win_vorny : Vorny) (cwin : CWin) : Model × Bool :=
  if vornyFalsy win_vorny ∨ cwin.id = 0 then (m, false)
  else
    let vn := vn_by_vorny m win_vorny (some ItemTy.win)
    match vn.val with
    | some (Sum.inl val) =>
      if vn.node_id = "" then (m, false)
      else if val.isOpen ∨ val.win ≠ none then (m, false)
      else
        match get_node m.tree vn.node_id with
        | none => (m, false)
        | some _ =>
          let m1 : Model := { m with tree := open_node m.tree vn.node_id }
          let m2 : Model :=
            { m1 with details := winsSet m1.details vn.node_id (fun w =>
                { w with win_id := cwin.id, win := some cwin, isOpen := true }) }
          let m3 : Model := { m2 with tree := add_multitype m2.tree vn.node_id NST_OPEN }
          let m4 := refresh_label m3 vn.node_id
          (refresh_icon m4 (Vorny.nid vn.node_id), true)
    | _ => (m, false)

/-- `module.markTabAsOpen(tab_vorny, ctab)` (`view/model.js` lines
545-582).  Copies the live tab's fields onto the record; does NOT update
the parent's `ordered_url_hash`; expands the parent node. -/
def markTabAsOpen (m : Model) (tab_vorny : Vorny) (ctab : CTab) : Model × Bool :=
  if vornyFalsy tab_vorny ∨ ctab.id = 0 then (m, false)
  else
    let vn := vn_by_vorny m tab_vorny (some ItemTy.tab)
    match vn.val with
    | some (Sum.inr val) =>
      if vn.node_id = "" then (m, false)
      else if val.isOpen ∨ val.tab ≠ none then (m, false)
      else
        match get_node m.tree vn.node_id with
        | none => (m, false)
        | some node =>
          let m1 : Model :=
            { m with details := tabsSet m.details vn.node_id (fun tb =>
                { tb with tab_id := ctab.id, win_id := ctab.windowId,
                          index := ctab.index, tab := some ctab,
                          raw_url := some ctab.url,
                          raw_title := some ctab.title, isOpen := true,
                          raw_favicon_url := ctab.favIconUrl,
                          isPinned := ctab.pinned }) }
          let m2 : Model := { m1 with tree := add_multitype m1.tree vn.node_id NST_OPEN }
          let m3 := refresh_label m2 vn.node_id
          let m4 := refresh_icon m3 (Vorny.nid vn.node_id)
          ({ m4 with tree := open_node m4.tree node.parent }, true)
    | _ => (m, false)

/-- `module.markWinAsClosed(win_vorny)` (`view/model.js` lines 591-616). -/
def markWinAsClosed (m : Model) (win_vorny : Vorny) : Model × Bool :=
  if vornyFalsy win_vorny then (m, false)
  else
    let vn := vn_by_vorny m win_vorny (some ItemTy.win)
    match vn.val with
    | some (Sum.inl val) =>
      if vn.node_id = "" then (m, false)
      else if ¬ val.isOpen ∨ val.win = none then (m, false)
      else
        let m1 : Model :=
          { m with details := winsSet m.details vn.node_id (fun w =>
              { w with win_id := NONE, win := none, isOpen := false }) }
        let m2 : Model := { m1 with tree := del_multitype m1.tree vn.node_id NST_OPEN }
        let m3 := refresh_label m2 vn.node_id
        (refresh_icon m3 (Vorny.nid vn.node_id), true)
    | _ => (m, false)

/-- `module.markTabAsClosed(tab_vorny)` (`view/model.js` lines 623-654):
clears the external ids and the handle to the NONE sentinel, leaves
`raw_url`, `raw_title` and `raw_favicon_url` untouched; the icon is kept
(favicon preserved). -/
def markTabAsClosed (m : Model) (tab_vorny : Vorny) : Model × Bool :=
  if vornyFalsy tab_vorny then (m, false)
  else
    let vn := vn_by_vorny m tab_vorny (some ItemTy.tab)
    match vn.val with
    | some (Sum.inr val) =>
      if vn.node_id = "" then (m, false)
      else
        match get_node m.tree vn.node_id with
        | none => (m, false)
        | some _ =>
          if ¬ val.isOpen ∨ val.tab = none then (m, false)
          else
            let m1 : Model :=
              { m with details := tabsSet m.details vn.node_id (fun tb =>
                  { tb with tab_id := NONE, win_id := NONE, index := NONE,
                            tab := none, isOpen := false }) }
            let m2 : Model := { m1 with tree := del_multitype m1.tree vn.node_id NST_OPEN }
            (refresh_label m2 vn.node_id, true)
    | _ => (m, false)

/-! ## Removing model items -/

/-- `module.eraseTab(tab_vorny)` (`view/model.js` lines 664-677): remove
the record, then the node.  Does NOT update the parent's
`ordered_url_hash`. -/
def eraseTab (m : Model) (tab_vorny : Vorny) : Model × Bool :=
  let vn := vn_by_vorny m tab_vorny (some ItemTy.tab)
  match vn.val, get_node m.tree vn.node_id with
  | some (Sum.inr _), some _ =>
    if vn.node_id = "" then (m, false)
    else
      let m1 : Model := { m with details := tabsRemove m.details vn.node_id }
      ({ m1 with tree := delete_node m1.tree vn.node_id }, true)
  | _, _ => (m, false)

/-- The child-erasure loop of `eraseWin`: erase each child tab in order,
stopping at the first failure. -/
def eraseChildren : Model → List NodeId → Model × Bool
  | m, [] => (m, true)
  | m, c :: rest =>
    match eraseTab m (Vorny.nid c) with
    | (m', true) => eraseChildren m' rest
    | (m', false) => (m', false)

/-- `module.eraseWin(win_vorny)` (`view/model.js` lines 687-707): erase
every child tab first (aborting on the first failure, possibly leaving a
partially-erased subtree), then remove the window's record and node. -/
def eraseWin (m : Model) (win_vorny : Vorny) : Model × Bool :=
  let vn := vn_by_vorny m win_vorny (some ItemTy.win)
  match vn.val with
  | some (Sum.inl _) =>
    if vn.node_id = "" then (m, false)
    else
      match get_node m.tree vn.node_id with
      | none => (m, false)
      | some node =>
        match eraseChildren m node.children with
        | (m1, true) =>
          let m2 : Model := { m1 with details := winsRemove m1.details vn.node_id }
          ({ m2 with tree := delete_node m2.tree vn.node_id }, true)
        | (m1, false) => (m1, false)
  | _ => (m, false)

/-! ## Merge Detector -/

/-- Collect `D.tabs.by_node_id(child, 'raw_url')` over the children, in
tree order; fail on the first child with no record or no truthy URL. -/
def childUrls (d : Details) : List NodeId → Option (List String)
  | [] => some []
  | c :: rest =>
    match tabByNodeId d c with
    | none => none
    | some tb =>
      match tb.raw_url with
      | none => none
      | some u =>
        if u = "" then none else (childUrls d rest).map (fun us => u :: us)

/-- `module.updateOrderedURLHash(vornyParent)` (`view/model.js` lines
331-363).  `Object.is(parent_val, other_win_val)` is reference identity
on store records, which the keyed store makes equivalent to `node_id`
equality. -/
def updateOrderedURLHash (m : Model) (vornyParent : Vorny) : Model × Bool :=
  let vn := vn_by_vorny m vornyParent (some ItemTy.win)
  match vn.val with
  | some (Sum.inl parent_val) =>
    if vn.node_id = "" then (m, false)
    else
      match get_node m.tree vn.node_id with
      | none => (m, false)
      | some parent_node =>
        match childUrls m.details parent_node.children with
        | none =>
          let d1 := winsSet m.details vn.node_id (fun w => { w with ordered_url_hash := none })
          ({ m with details := d1 }, false)
        | some child_urls =>
          let ordered_url_hash := orderedHashOfStrings child_urls
          match winByOrderedUrlHash m.details ordered_url_hash with
          | some other_win_val =>
            if other_win_val.node_id = parent_val.node_id then (m, true)
            else
              let d1 := winsSet m.details vn.node_id (fun w => { w with ordered_url_hash := none })
              ({ m with details := d1 }, false)
          | none =>
            let d1 := winsSet m.details vn.node_id
              (fun w => { w with ordered_url_hash := some ordered_url_hash })
            ({ m with details := d1 }, true)
  | _ => (m, false)

/-! # Theorems

## Frame lemmas: label/icon refreshes never touch the Keyed Store -/

theorem refresh_label_details (m : Model) (nid : NodeId) :
    (refresh_label m nid).details = m.details := by
  unfold refresh_label
  split
  · rfl
  · split <;> rfl

theorem refresh_icon_details (m : Model) (v : Vorny) :
    (refresh_icon m v).details = m.details := by
  unfold refresh_icon
  set vn := vn_by_vorny m v none with hvn
  cases hv : vn.val with
  | none => simp [hv]
  | some val =>
    cases hn : get_node m.tree vn.node_id with
    | none => simp [hv, hn]
    | some nd => simp only [hv, hn]; split <;> rfl

/-! ## Keyed-lookup lemmas -/

theorem winsSet_find?_self (l : List WinVal) (n : NodeId) (f : WinVal → WinVal)
    (hf : ∀ w, (f w).node_id = w.node_id) :
    (l.map (fun w => if w.node_id = n then f w else w)).find? (fun w => w.node_id = n)
      = (l.find? (fun w => w.node_id = n)).map f := by
  induction l with
  | nil => rfl
  | cons a t ih =>
    by_cases h : a.node_id = n
    · simp [List.find?_cons, h, hf]
    · simp [List.find?_cons, h, ih]

theorem winsSet_find?_other (l : List WinVal) (n k : NodeId) (f : WinVal → WinVal)
    (hf : ∀ w, (f w).node_id = w.node_id) (hk : k ≠ n) :
    (l.map (fun w => if w.node_id = n then f w else w)).find? (fun w => w.node_id = k)
      = l.find? (fun w => w.node_id = k) := by
  induction l with
  | nil => rfl
  | cons a t ih =>
    by_cases h : a.node_id = n
    · simp [List.find?_cons, h, hf, Ne.symm hk, ih]
    · simp only [List.map_cons, if_neg h]
      by_cases h2 : a.node_id = k
      · simp [List.find?_cons, h2]
      · simp [List.find?_cons, h2, ih]

theorem winByNodeId_winsSet_self (d : Details) (n : NodeId) (f : WinVal → WinVal)
    (hf : ∀ w, (f w).node_id = w.node_id) :
    winByNodeId (winsSet d n f) n = (winByNodeId d n).map f := by
  simp only [winByNodeId, winsSet]
  exact winsSet_find?_self d.windows n f hf

theorem winByNodeId_winsSet_other (d : Details) (n k : NodeId) (f : WinVal → WinVal)
    (hf : ∀ w, (f w).node_id = w.node_id) (hk : k ≠ n) :
    winByNodeId (winsSet d n f) k = winByNodeId d k := by
  simp only [winByNodeId, winsSet]
  exact winsSet_find?_other d.windows n k f hf hk

theorem tabsSet_find?_self (l : List TabVal) (n : NodeId) (f : TabVal → TabVal)
    (hf : ∀ tb, (f tb).node_id = tb.node_id) :
    (l.map (fun tb => if tb.node_id = n then f tb else tb)).find? (fun tb => tb.node_id = n)
      = (l.find? (fun tb => tb.node_id = n)).map f := by
  induction l with
  | nil => rfl
  | cons a t ih =>
    by_cases h : a.node_id = n
    · simp [List.find?_cons, h, hf]
    · simp [List.find?_cons, h, ih]

theorem tabByNodeId_tabsSet_self (d : Details) (n : NodeId) (f : TabVal → TabVal)
    (hf : ∀ tb, (f tb).node_id = tb.node_id) :
    tabByNodeId (tabsSet d n f) n = (tabByNodeId d n).map f := by
  simp only [tabByNodeId, tabsSet]
  exact tabsSet_find?_self d.tabs n f hf

theorem find?_key_filter_self {α : Type} (key : α → String) (l : List α) (c : String) :
    (l.filter (fun a => key a ≠ c)).find? (fun a => key a = c) = none := by
  rw [List.find?_eq_none]
  intro x hx
  have := List.of_mem_filter hx
  simpa using this

theorem find?_key_filter_ne {α : Type} (key : α → String) (l : List α) (c x : String)
    (hx : x ≠ c) :
    (l.filter (fun a => key a ≠ c)).find? (fun a => key a = x)
      = l.find? (fun a => key a = x) := by
  induction l with
  | nil => rfl
  | cons a t ih =>
    by_cases hac : key a = c
    · have h1 : ¬ (key a = x) := by
        intro h
        exact hx (h ▸ hac ▸ rfl)
      rw [List.filter_cons_of_neg (by simp [hac]),
        List.find?_cons_of_neg _ (by simp [h1]), ih]
    · by_cases hax : key a = x
      · rw [List.filter_cons_of_pos (by simp [hac]),
          List.find?_cons_of_pos _ (by simp [hax]),
          List.find?_cons_of_pos _ (by simp [hax])]
      · rw [List.filter_cons_of_pos (by simp [hac]),
          List.find?_cons_of_neg _ (by simp [hax]),
          List.find?_cons_of_neg _ (by simp [hax]), ih]

/-! ## C5 -/

set_option maxRecDepth 1000000 in
/-- BLAKE2s-256 of the empty message agrees with the RFC 7693 reference
implementation (`hashlib.blake2s` test vector); this validates the
modelled hash function. -/
theorem blake2s_vector_empty :
    blake2s256Hex []
      = "69217a3079908094e11121d042354a7c1f55b6482ca1a51e1b250dfd1ed0eef9" := by
  decide

set_option maxRecDepth 1000000 in
/-- BLAKE2s-256 of `"abc"` agrees with the reference implementation. -/
theorem blake2s_vector_abc :
    blake2s256Hex (strUtf8 "abc")
      = "508c5e8c327c14e2e1a72ba34eeb452f37458b209ed63a294d999b4c86675982" := by
  decide

set_option maxRecDepth 1000000 in
/-- C5: `hash_sequence` (`orderedHashOfStrings`) is a BLAKE2s-256 digest of
each string's UTF-8 bytes followed by a single NUL byte, in sequence order;
it is deterministic (two calls on the same ordered sequence return equal
hex digests); and `hash_sequence(["a","b"])` differs from
`hash_sequence(["ab"])` and from `hash_sequence(["a","bc"])`. -/
theorem orderedHashOfStrings_spec :
    (∀ strs : List String,
        orderedHashOfStrings strs
          = blake2s256Hex ((strs.map (fun s => strUtf8 s ++ [0])).flatMap id))
    ∧ (∀ strs : List String, orderedHashOfStrings strs = orderedHashOfStrings strs)
    ∧ orderedHashOfStrings ["a", "b"] ≠ orderedHashOfStrings ["ab"]
    ∧ orderedHashOfStrings ["a", "b"] ≠ orderedHashOfStrings ["a", "bc"] :=
  ⟨fun _ => rfl, fun _ => rfl, by decide, by decide⟩

/-! ## C10 -/

theorem eraseTab_windows_unchanged (m : Model) (v : Vorny) :
    ((eraseTab m v).1).details.windows = m.details.windows := by
  unfold eraseTab
  set vn := vn_by_vorny m v (some ItemTy.tab) with hvn
  cases hv : vn.val with
  | none => simp [hv]
  | some val =>
    cases val with
    | inl w => simp [hv]
    | inr tb =>
      cases hn : get_node m.tree vn.node_id with
      | none => simp [hv, hn]
      | some nd => simp only [hv, hn]; split <;> rfl

theorem markTabAsOpen_windows_unchanged (m : Model) (v : Vorny) (ct : CTab) :
    ((markTabAsOpen m v ct).1).details.windows = m.details.windows := by
  unfold markTabAsOpen
  split
  · rfl
  · set vn := vn_by_vorny m v (some ItemTy.tab) with hvn
    cases hv : vn.val with
    | none => simp [hv]
    | some val =>
      cases val with
      | inl w => simp [hv]
      | inr tb =>
        cases hn : get_node m.tree vn.node_id with
        | none => simp [hv, hn]
        | some nd =>
          simp only [hv, hn]
          split
          · rfl
          · split
            · rfl
            · simp [refresh_icon_details, refresh_label_details, tabsSet]

/-- C10: `eraseTab` and `markTabAsOpen` leave every window record in the
Keyed Store — in particular the parent window `ordered_url_hash` —
completely unchanged, even though they change the window child-tab set
or a child tab URL; re-hashing is deferred to a separate
`updateOrderedURLHash` call by the caller. -/
theorem eraseTab_markTabAsOpen_hash_frame :
    ∀ (m : Model) (v : Vorny) (ct : CTab) (p : NodeId),
      winByNodeId ((eraseTab m v).1).details p = winByNodeId m.details p
      ∧ winByNodeId ((markTabAsOpen m v ct).1).details p = winByNodeId m.details p := by
  intro m v ct p
  constructor
  · unfold winByNodeId
    rw [eraseTab_windows_unchanged]
  · unfold winByNodeId
    rw [markTabAsOpen_windows_unchanged]

/-! ## Resolver and tree-surgery helper lemmas -/

theorem vn_nid_tab (m : Model) (nid : NodeId) (hnid : nid ≠ "") :
    vn_by_vorny m (Vorny.nid nid) (some ItemTy.tab)
      = { val := (tabByNodeId m.details nid).map Sum.inr, node_id := nid } := by
  simp [vn_by_vorny, hnid]

theorem vn_nid_win (m : Model) (nid : NodeId) (hnid : nid ≠ "") :
    vn_by_vorny m (Vorny.nid nid) (some ItemTy.win)
      = { val := (winByNodeId m.details nid).map Sum.inl, node_id := nid } := by
  simp [vn_by_vorny, hnid]

theorem nodes_find?_map_isSome (l : List TreeNode) (n k : NodeId) (f : TreeNode → TreeNode)
    (hf : ∀ nd, (f nd).id = nd.id) :
    ((l.map (fun nd => if nd.id = n then f nd else nd)).find? (fun nd => nd.id = k)).isSome
      = (l.find? (fun nd => nd.id = k)).isSome := by
  induction l with
  | nil => rfl
  | cons a t ih =>
    have h1 : (if a.id = n then f a else a).id = a.id := by split <;> simp [hf]
    by_cases h : a.id = k
    · rw [List.map_cons, List.find?_cons_of_pos _ (by simp only [h1]; simp [h]),
        List.find?_cons_of_pos _ (by simp [h])]
      rfl
    · rw [List.map_cons, List.find?_cons_of_neg _ (by simp only [h1]; simp [h]),
        List.find?_cons_of_neg _ (by simp [h]), ih]

theorem get_node_mapNode_isSome (t : Tree) (n k : NodeId) (f : TreeNode → TreeNode)
    (hf : ∀ nd, (f nd).id = nd.id) :
    (get_node (mapNode t n f) k).isSome = (get_node t k).isSome := by
  simp only [get_node, mapNode]
  exact nodes_find?_map_isSome t.nodes n k f hf

theorem refresh_label_get_node_isSome (m : Model) (nid k : NodeId) :
    (get_node ((refresh_label m nid).tree) k).isSome = (get_node m.tree k).isSome := by
  unfold refresh_label
  split
  · rfl
  · split
    · rfl
    · exact get_node_mapNode_isSome m.tree nid k _ (fun nd => rfl)

theorem refresh_icon_get_node_isSome (m : Model) (v : Vorny) (k : NodeId) :
    (get_node ((refresh_icon m v).tree) k).isSome = (get_node m.tree k).isSome := by
  unfold refresh_icon
  set vn := vn_by_vorny m v none with hvn
  cases hv : vn.val with
  | none => simp [hv]
  | some val =>
    cases hn : get_node m.tree vn.node_id with
    | none => simp [hv, hn]
    | some nd =>
      simp only [hv, hn]
      split
      · rfl
      · exact get_node_mapNode_isSome m.tree vn.node_id k _ (fun nd => rfl)

/-! ## A concrete fixture for witnesses: window `w1` closed/saved=false with
closed tab `t1`, window `w2` open with open tab `t2`. -/

def fixCWin : CWin := { id := 5 }

def fixCTab : CTab :=
  { id := 7, windowId := 5, index := 0, url := "http://y", title := "Y",
    favIconUrl := none, pinned := false }

def fixRoot : TreeNode :=
  { id := "#", parent := "", children := ["w1", "w2"], text := "",
    icon := none, multitypes := [], opened := true }

def fixW1Node : TreeNode :=
  { id := "w1", parent := "#", children := ["t1"], text := "Foo",
    icon := none, multitypes := ["win"], opened := false }

def fixW2Node : TreeNode :=
  { id := "w2", parent := "#", children := ["t2"], text := "Saved tabs",
    icon := none, multitypes := ["win", "open"], opened := true }

def fixT1Node : TreeNode :=
  { id := "t1", parent := "w1", children := [], text := "X",
    icon := none, multitypes := ["tab"], opened := false }

def fixT2Node : TreeNode :=
  { id := "t2", parent := "w2", children := [], text := "Y",
    icon := none, multitypes := ["tab", "open"], opened := false }

def fixW1 : WinVal :=
  { win_id := NONE, node_id := "w1", win := none, raw_title := some "Foo",
    raw_bullet := none, isOpen := false, keep := some false,
    ordered_url_hash := none }

def fixW2 : WinVal :=
  { win_id := 5, node_id := "w2", win := some fixCWin, raw_title := none,
    raw_bullet := none, isOpen := true, keep := some true,
    ordered_url_hash := none }

def fixT1 : TabVal :=
  { tab_id := NONE, node_id := "t1", win_id := NONE, index := NONE,
    tab := none, isOpen := false, isPinned := false,
    raw_url := some "http://x", raw_title := some "X",
    raw_favicon_url := none, raw_bullet := none }

def fixT2 : TabVal :=
  { tab_id := 7, node_id := "t2", win_id := 5, index := 0,
    tab := some fixCTab, isOpen := true, isPinned := false,
    raw_url := some "http://y", raw_title := some "Y",
    raw_favicon_url := none, raw_bullet := none }

def fixModel : Model :=
  { tree := { nodes := [fixRoot, fixW1Node, fixW2Node, fixT1Node, fixT2Node],
              counter := 10 },
    details := { windows := [fixW1, fixW2], tabs := [fixT1, fixT2] } }

/-! ## C6 -/

theorem markWinAsOpen_refused (m : Model) (v : Vorny) (cwin : CWin) (w : WinVal)
    (hv : (vn_by_vorny m v (some ItemTy.win)).val = some (Sum.inl w))
    (hopen : w.isOpen = true ∨ w.win ≠ none) :
    markWinAsOpen m v cwin = (m, false) := by
  unfold markWinAsOpen
  split
  · rfl
  · set vn := vn_by_vorny m v (some ItemTy.win) with hvn
    simp only [hv]
    by_cases hnid : vn.node_id = ""
    · simp [hnid]
    · rw [if_neg hnid, if_pos hopen]

theorem markTabAsOpen_refused (m : Model) (v : Vorny) (ctab : CTab) (tb : TabVal)
    (hv : (vn_by_vorny m v (some ItemTy.tab)).val = some (Sum.inr tb))
    (hopen : tb.isOpen = true ∨ tb.tab ≠ none) :
    markTabAsOpen m v ctab = (m, false) := by
  unfold markTabAsOpen
  split
  · rfl
  · set vn := vn_by_vorny m v (some ItemTy.tab) with hvn
    simp only [hv]
    by_cases hnid : vn.node_id = ""
    · simp [hnid]
    · rw [if_neg hnid, if_pos hopen]

theorem markWinAsClosed_refused (m : Model) (v : Vorny) (w : WinVal)
    (hv : (vn_by_vorny m v (some ItemTy.win)).val = some (Sum.inl w))
    (hclosed : w.isOpen = false ∨ w.win = none) :
    markWinAsClosed m v = (m, false) := by
  unfold markWinAsClosed
  split
  · rfl
  · set vn := vn_by_vorny m v (some ItemTy.win) with hvn
    simp only [hv]
    by_cases hnid : vn.node_id = ""
    · simp [hnid]
    · rw [if_neg hnid, if_pos]
      rcases hclosed with h | h
      · exact Or.inl (by simp [h])
      · exact Or.inr h

theorem markTabAsClosed_refused (m : Model) (v : Vorny) (tb : TabVal)
    (hv : (vn_by_vorny m v (some ItemTy.tab)).val = some (Sum.inr tb))
    (hclosed : tb.isOpen = false ∨ tb.tab = none) :
    markTabAsClosed m v = (m, false) := by
  unfold markTabAsClosed
  split
  · rfl
  · set vn := vn_by_vorny m v (some ItemTy.tab) with hvn
    simp only [hv]
    by_cases hnid : vn.node_id = ""
    · simp [hnid]
    · rw [if_neg hnid]
      cases hn : get_node m.tree vn.node_id with
      | none => simp [hn]
      | some nd =>
        simp only [hn]
        rw [if_pos]
        rcases hclosed with h | h
        · exact Or.inl (by simp [h])
        · exact Or.inr h

/-- C6: for window items and tab items alike, `mark_open` on an
already-open item (`is_open` true or handle present) and `mark_closed` on
an already-closed item (`is_open` false or handle absent) return false and
leave the model — every record field and every node tag — unchanged: the
result is literally `(m, false)`.  (The informational `log.info`
diagnostic the source emits on the refusal paths is a side channel outside
the state model.) -/
theorem mark_redundant_refused :
    (∀ (m : Model) (v : Vorny) (cwin : CWin) (w : WinVal),
        (vn_by_vorny m v (some ItemTy.win)).val = some (Sum.inl w) →
        (w.isOpen = true ∨ w.win ≠ none) →
        markWinAsOpen m v cwin = (m, false))
    ∧ (∀ (m : Model) (v : Vorny) (ctab : CTab) (tb : TabVal),
        (vn_by_vorny m v (some ItemTy.tab)).val = some (Sum.inr tb) →
        (tb.isOpen = true ∨ tb.tab ≠ none) →
        markTabAsOpen m v ctab = (m, false))
    ∧ (∀ (m : Model) (v : Vorny) (w : WinVal),
        (vn_by_vorny m v (some ItemTy.win)).val = some (Sum.inl w) →
        (w.isOpen = false ∨ w.win = none) →
        markWinAsClosed m v = (m, false))
    ∧ (∀ (m : Model) (v : Vorny) (tb : TabVal),
        (vn_by_vorny m v (some ItemTy.tab)).val = some (Sum.inr tb) →
        (tb.isOpen = false ∨ tb.tab = none) →
        markTabAsClosed m v = (m, false)) :=
  ⟨fun m v cwin w hv h => markWinAsOpen_refused m v cwin w hv h,
   fun m v ctab tb hv h => markTabAsOpen_refused m v ctab tb hv h,
   fun m v w hv h => markWinAsClosed_refused m v w hv h,
   fun m v tb hv h => markTabAsClosed_refused m v tb hv h⟩

/-- Witness for C6 at the concrete fixture: re-marking the open window
`w2` open, the open tab `t2` open, the closed window `w1` closed and the
closed tab `t1` closed are all refused without a state change. -/
theorem mark_redundant_refused_witness :
    markWinAsOpen fixModel (Vorny.nid "w2") fixCWin = (fixModel, false)
    ∧ markTabAsOpen fixModel (Vorny.nid "t2") fixCTab = (fixModel, false)
    ∧ markWinAsClosed fixModel (Vorny.nid "w1") = (fixModel, false)
    ∧ markTabAsClosed fixModel (Vorny.nid "t1") = (fixModel, false) :=
  ⟨mark_redundant_refused.1 fixModel (Vorny.nid "w2") fixCWin fixW2 rfl
      (Or.inl rfl),
   mark_redundant_refused.2.1 fixModel (Vorny.nid "t2") fixCTab fixT2 rfl
      (Or.inl rfl),
   mark_redundant_refused.2.2.1 fixModel (Vorny.nid "w1") fixW1 rfl
      (Or.inl rfl),
   mark_redundant_refused.2.2.2 fixModel (Vorny.nid "t1") fixT1 rfl
      (Or.inl rfl)⟩

/-! ## C7 -/

theorem markTabAsClosed_effect (m : Model) (nid : NodeId) (tb : TabVal)
    (htb : tabByNodeId m.details nid = some tb) (hnid : nid ≠ "")
    (hnode : (get_node m.tree nid).isSome = true)
    (hopen : tb.isOpen = true) (htab : tb.tab ≠ none) :
    (markTabAsClosed m (Vorny.nid nid)).2 = true
    ∧ tabByNodeId ((markTabAsClosed m (Vorny.nid nid)).1).details nid
        = some { tb with tab_id := NONE, win_id := NONE, index := NONE,
                         tab := none, isOpen := false } := by
  unfold markTabAsClosed
  rw [if_neg (show ¬ vornyFalsy (Vorny.nid nid) = true by simp [vornyFalsy, hnid])]
  rw [vn_nid_tab m nid hnid]
  simp only [htb, Option.map_some']
  rw [if_neg hnid]
  cases hn : get_node m.tree nid with
  | none => rw [hn] at hnode; simp at hnode
  | some nd =>
    simp only [hn]
    rw [if_neg (by simp [hopen, htab])]
    refine ⟨by simp, ?_⟩
    simp only [refresh_label_details]
    rw [tabByNodeId_tabsSet_self]
    · rw [htb]
      rfl
    · intro x
      rfl

theorem markTabAsOpen_effect (m : Model) (nid : NodeId) (tb : TabVal) (ct : CTab)
    (htb : tabByNodeId m.details nid = some tb) (hnid : nid ≠ "")
    (hnode : (get_node m.tree nid).isSome = true)
    (hclosed : tb.isOpen = false) (hnotab : tb.tab = none) (hct : ct.id ≠ 0) :
    (markTabAsOpen m (Vorny.nid nid) ct).2 = true
    ∧ tabByNodeId ((markTabAsOpen m (Vorny.nid nid) ct).1).details nid
        = some { tb with tab_id := ct.id, win_id := ct.windowId, index := ct.index,
                         tab := some ct, raw_url := some ct.url,
                         raw_title := some ct.title, isOpen := true,
                         raw_favicon_url := ct.favIconUrl, isPinned := ct.pinned }
    ∧ (get_node ((markTabAsOpen m (Vorny.nid nid) ct).1).tree nid).isSome = true := by
  unfold markTabAsOpen
  rw [if_neg (show ¬ (vornyFalsy (Vorny.nid nid) = true ∨ ct.id = 0) by
    simp [vornyFalsy, hnid, hct])]
  rw [vn_nid_tab m nid hnid]
  simp only [htb, Option.map_some']
  rw [if_neg hnid]
  rw [if_neg (by simp [hclosed, hnotab])]
  cases hn : get_node m.tree nid with
  | none => rw [hn] at hnode; simp at hnode
  | some nd =>
    simp only [hn]
    refine ⟨by simp, ?_, ?_⟩
    · simp only [refresh_icon_details, refresh_label_details]
      rw [tabByNodeId_tabsSet_self]
      · rw [htb]
        rfl
      · intro x
        rfl
    · unfold open_node
      rw [get_node_mapNode_isSome]
      · rw [refresh_icon_get_node_isSome, refresh_label_get_node_isSome]
        unfold add_multitype
        rw [get_node_mapNode_isSome]
        · rw [hn]
          rfl
        · intro x
          split <;> rfl
      · intro x
        rfl

/-- C7: `markTabAsClosed` on an open tab sets `is_open` to false, sets
`browser_tab_id` (`tab_id`), `browser_win_id` (`win_id`) and `index` to
the NONE sentinel, clears the handle (`tab`), and leaves `raw_url`,
`raw_title` and `raw_favicon_url` exactly as before (the result record is
the old record with only those five fields changed); consequently, after
`markTabAsOpen(ctab)` followed by `markTabAsClosed` on the same tab,
`is_open` is false, the external ids are NONE, and the URL/title/favicon
fields equal their post-`mark_open` values copied from `ctab`. -/
theorem markTabAsClosed_frame_and_roundtrip :
    (∀ (m : Model) (nid : NodeId) (tb : TabVal),
        tabByNodeId m.details nid = some tb → nid ≠ "" →
        (get_node m.tree nid).isSome = true →
        tb.isOpen = true → tb.tab ≠ none →
        (markTabAsClosed m (Vorny.nid nid)).2 = true
        ∧ tabByNodeId ((markTabAsClosed m (Vorny.nid nid)).1).details nid
            = some { tb with tab_id := NONE, win_id := NONE, index := NONE,
                             tab := none, isOpen := false })
    ∧ (∀ (m : Model) (nid : NodeId) (tb : TabVal) (ct : CTab),
        tabByNodeId m.details nid = some tb → nid ≠ "" →
        (get_node m.tree nid).isSome = true →
        tb.isOpen = false → tb.tab = none → ct.id ≠ 0 →
        (markTabAsOpen m (Vorny.nid nid) ct).2 = true
        ∧ (markTabAsClosed ((markTabAsOpen m (Vorny.nid nid) ct).1)
            (Vorny.nid nid)).2 = true
        ∧ tabByNodeId ((markTabAsClosed ((markTabAsOpen m (Vorny.nid nid) ct).1)
              (Vorny.nid nid)).1).details nid
            = some { tb with tab_id := NONE, win_id := NONE, index := NONE,
                             tab := none, isOpen := false,
                             raw_url := some ct.url, raw_title := some ct.title,
                             raw_favicon_url := ct.favIconUrl,
                             isPinned := ct.pinned }) := by
  constructor
  · intro m nid tb htb hnid hnode hopen htab
    exact markTabAsClosed_effect m nid tb htb hnid hnode hopen htab
  · intro m nid tb ct htb hnid hnode hclosed hnotab hct
    obtain ⟨hret, hrec, hnode1⟩ :=
      markTabAsOpen_effect m nid tb ct htb hnid hnode hclosed hnotab hct
    obtain ⟨cret, crec⟩ :=
      markTabAsClosed_effect ((markTabAsOpen m (Vorny.nid nid) ct).1) nid _
        hrec hnid hnode1 rfl (by simp)
    exact ⟨hret, cret, by rw [crec]⟩

/-- Witness for C7 at the concrete fixture: closing the open tab `t2`, and
the open/close round trip on the closed tab `t1`. -/
theorem markTabAsClosed_frame_and_roundtrip_witness :
    ((markTabAsClosed fixModel (Vorny.nid "t2")).2 = true
      ∧ tabByNodeId ((markTabAsClosed fixModel (Vorny.nid "t2")).1).details "t2"
          = some { fixT2 with tab_id := NONE, win_id := NONE, index := NONE,
                              tab := none, isOpen := false })
    ∧ ((markTabAsOpen fixModel (Vorny.nid "t1") fixCTab).2 = true
      ∧ (markTabAsClosed ((markTabAsOpen fixModel (Vorny.nid "t1") fixCTab).1)
          (Vorny.nid "t1")).2 = true
      ∧ tabByNodeId ((markTabAsClosed
            ((markTabAsOpen fixModel (Vorny.nid "t1") fixCTab).1)
            (Vorny.nid "t1")).1).details "t1"
          = some { fixT1 with tab_id := NONE, win_id := NONE, index := NONE,
                              tab := none, isOpen := false,
                              raw_url := some fixCTab.url,
                              raw_title := some fixCTab.title,
                              raw_favicon_url := fixCTab.favIconUrl,
                              isPinned := fixCTab.pinned }) :=
  ⟨markTabAsClosed_frame_and_roundtrip.1 fixModel "t2" fixT2 rfl (by decide)
      rfl rfl (by decide),
   markTabAsClosed_frame_and_roundtrip.2 fixModel "t1" fixT1 fixCTab rfl
      (by decide) rfl rfl rfl (by decide)⟩

/-! ## C2 -/

/-- The node record `create_node` builds. -/
def newTreeNode (nid par : NodeId) (txt : String) : TreeNode :=
  { id := nid, parent := par, children := [], text := txt,
    icon := none, multitypes := [], opened := false }

theorem create_parts (t : Tree) (par : NodeId) (txt : String) (p : InsertPos)
    (nid : NodeId) (t1 : Tree)
    (hc : create_node t par txt p = some (nid, t1)) :
    ∃ parNode,
      get_node t par = some parNode
      ∧ (∀ nd ∈ t.nodes, nd.id ≠ nid)
      ∧ t1.nodes = (t.nodes.map (fun nd =>
            if nd.id = par then
              { nd with children := insertAt parNode.children p nid } else nd))
          ++ [newTreeNode nid par txt] := by
  unfold create_node at hc
  cases hg : get_node t par with
  | none => rw [hg] at hc; exact absurd hc (by simp)
  | some parNode =>
    rw [hg] at hc
    simp only at hc
    by_cases ha : (t.nodes.any (fun nd => nd.id = freshId t)) = true
    · rw [if_pos ha] at hc
      exact absurd hc (by simp)
    · rw [if_neg ha] at hc
      rw [Option.some.injEq, Prod.mk.injEq] at hc
      obtain ⟨hid, ht⟩ := hc
      have ha' : (t.nodes.any (fun nd => nd.id = freshId t)) = false := by
        simpa using ha
      refine ⟨parNode, rfl, ?_, ?_⟩
      · intro nd hnd
        rw [List.any_eq_false] at ha'
        have := ha' nd hnd
        rw [← hid]
        simpa using this
      · rw [← ht, ← hid]
        rfl

theorem map_id_on {α : Type} (l : List α) (f : α → α) (h : ∀ x ∈ l, f x = x) :
    l.map f = l := by
  induction l with
  | nil => rfl
  | cons a t ih =>
    rw [List.map_cons, h a (by simp), ih (fun x hx => h x (by simp [hx]))]

theorem subtreeIds_nil (t : Tree) (fuel : Nat) : subtreeIds t fuel [] = [] := by
  cases fuel <;> rfl

theorem create_tree_shape (t : Tree) (par : NodeId) (txt : String) (p : InsertPos)
    (nid : NodeId) (t1 : Tree) (ty : String)
    (hc : create_node t par txt p = some (nid, t1)) :
    ∃ parNode,
      get_node t par = some parNode
      ∧ (∀ nd ∈ t.nodes, nd.id ≠ nid)
      ∧ (add_multitype t1 nid ty).nodes
          = (t.nodes.map (fun nd =>
              if nd.id = par then
                { nd with children := insertAt parNode.children p nid } else nd))
            ++ [{ newTreeNode nid par txt with multitypes := [ty] }] := by
  obtain ⟨parNode, hg, hids, hnodes⟩ := create_parts t par txt p nid t1 hc
  refine ⟨parNode, hg, hids, ?_⟩
  show (mapNode t1 nid _).nodes = _
  simp only [mapNode]
  rw [hnodes, List.map_append]
  congr 1
  · apply map_id_on
    intro x hx
    obtain ⟨nd, hnd, hx⟩ := List.mem_map.mp hx
    have : x.id ≠ nid := by
      rw [← hx]
      have := hids nd hnd
      split <;> simpa using this
    rw [if_neg this]
  · simp [newTreeNode]

theorem create_get_node_some (t : Tree) (par : NodeId) (txt : String) (p : InsertPos)
    (nid : NodeId) (t1 : Tree) (ty : String)
    (hc : create_node t par txt p = some (nid, t1)) :
    get_node (add_multitype t1 nid ty) nid
      = some { newTreeNode nid par txt with multitypes := [ty] } := by
  obtain ⟨parNode, hg, hids, hnodes⟩ := create_tree_shape t par txt p nid t1 ty hc
  unfold get_node
  rw [hnodes, List.find?_append]
  have h1 : (t.nodes.map (fun nd =>
      if nd.id = par then
        { nd with children := insertAt parNode.children p nid } else nd)).find?
      (fun nd => nd.id = nid) = none := by
    rw [List.find?_eq_none]
    intro x hx
    obtain ⟨nd, hnd, hx⟩ := List.mem_map.mp hx
    have : x.id ≠ nid := by
      rw [← hx]
      have := hids nd hnd
      split <;> simpa using this
    simpa using this
  rw [h1]
  simp [newTreeNode]

theorem insertAt_filter (l : List NodeId) (p : InsertPos) (x : NodeId)
    (h : ¬ x ∈ l) :
    (insertAt l p x).filter (fun c => !([x].contains c)) = l := by
  have hq : ∀ c ∈ l, (!([x].contains c)) = true := by
    intro c hc
    simp only [List.contains_cons, List.contains_nil, Bool.or_false,
      Bool.not_eq_true', beq_eq_false_iff_ne]
    intro hcx
    exact h (hcx ▸ hc)
  have hx : (!([x].contains x)) = false := by simp
  cases p with
  | pos i =>
    simp only [insertAt]
    rw [List.filter_append, List.filter_cons, hx]
    rw [List.filter_eq_self.mpr (fun c hc => hq c (List.take_subset i l hc)),
      List.filter_eq_self.mpr (fun c hc => hq c (List.drop_subset i l hc))]
    exact List.take_append_drop i l
  | last =>
    simp only [insertAt]
    rw [List.filter_append, List.filter_cons, hx]
    rw [List.filter_eq_self.mpr (fun c hc => hq c hc)]
    simp

theorem create_rollback (t : Tree) (par : NodeId) (txt : String) (p : InsertPos)
    (nid : NodeId) (t1 : Tree) (ty : String)
    (hc : create_node t par txt p = some (nid, t1))
    (hFresh : ∀ nd ∈ t.nodes, ¬ nid ∈ nd.children)
    (hNodup : (t.nodes.map (fun nd => nd.id)).Nodup) :
    (delete_node (add_multitype t1 nid ty) nid).nodes = t.nodes := by
  obtain ⟨parNode, hg, hids, hnodes⟩ := create_tree_shape t par txt p nid t1 ty hc
  have hParMem : parNode ∈ t.nodes := List.mem_of_find?_eq_some hg
  have hParId : parNode.id = par := by simpa using List.find?_some hg
  have hgn := create_get_node_some t par txt p nid t1 ty hc
  unfold delete_node
  rw [hgn]
  simp only
  have hdoomed : subtreeIds (add_multitype t1 nid ty)
      ((add_multitype t1 nid ty).nodes.length + 1) [nid] = [nid] := by
    simp only [subtreeIds, hgn, newTreeNode]
    simp [subtreeIds_nil]
  rw [hdoomed, hnodes]
  rw [List.filter_append]
  have hfilt2 : ([{ newTreeNode nid par txt with multitypes := [ty] }].filter
      (fun nd => !([nid].contains nd.id))) = [] := by
    simp [newTreeNode]
  have hfilt1 : ((t.nodes.map (fun nd =>
      if nd.id = par then
        { nd with children := insertAt parNode.children p nid } else nd)).filter
      (fun nd => !([nid].contains nd.id)))
      = t.nodes.map (fun nd =>
          if nd.id = par then
            { nd with children := insertAt parNode.children p nid } else nd) := by
    apply List.filter_eq_self.mpr
    intro x hx
    obtain ⟨nd, hnd, hx⟩ := List.mem_map.mp hx
    have : x.id ≠ nid := by
      rw [← hx]
      have := hids nd hnd
      split <;> simpa using this
    simpa using this
  rw [hfilt1, hfilt2, List.append_nil, List.map_map]
  apply map_id_on
  intro nd hnd
  simp only [Function.comp]
  by_cases hpar : nd.id = par
  · have hndP : nd = parNode := by
      apply List.inj_on_of_nodup_map hNodup hnd hParMem
      rw [hpar, hParId]
    rw [if_pos hpar]
    simp only
    rw [insertAt_filter parNode.children p nid (hFresh parNode hParMem)]
    rw [hndP]
  · rw [if_neg hpar]
    have hself : nd.children.filter (fun c => !([nid].contains c)) = nd.children := by
      apply List.filter_eq_self.mpr
      intro c hc
      simp only [List.contains_cons, List.contains_nil, Bool.or_false,
        Bool.not_eq_true', beq_eq_false_iff_ne]
      intro hcx
      exact hFresh nd hnd (hcx ▸ hc)
    rw [hself]

theorem create_node_id (t : Tree) (par : NodeId) (txt : String) (p : InsertPos)
    (nid : NodeId) (t1 : Tree)
    (hc : create_node t par txt p = some (nid, t1)) : nid = freshId t := by
  unfold create_node at hc
  cases hg : get_node t par with
  | none => rw [hg] at hc; exact absurd hc (by simp)
  | some parNode =>
    rw [hg] at hc
    simp only at hc
    by_cases ha : (t.nodes.any (fun nd => nd.id = freshId t)) = true
    · rw [if_pos ha] at hc
      exact absurd hc (by simp)
    · rw [if_neg ha] at hc
      rw [Option.some.injEq, Prod.mk.injEq] at hc
      exact hc.1.symm

theorem winsAdd_some (d : Details) (w : WinVal) (d1 : Details)
    (h : winsAdd d w = some d1) :
    (d.windows.find? (fun x => x.node_id = w.node_id)) = none
    ∧ d1 = { d with windows := d.windows ++ [w] } := by
  unfold winsAdd at h
  by_cases ha : (d.windows.any (fun w' => w'.node_id = w.node_id)) = true
  · rw [if_pos ha] at h
    exact absurd h (by simp)
  · rw [if_neg ha] at h
    have ha' : (d.windows.any (fun w' => w'.node_id = w.node_id)) = false := by simpa using ha
    rw [List.any_eq_false] at ha'
    refine ⟨?_, by simpa using h.symm⟩
    rw [List.find?_eq_none]
    intro x hx
    simpa using ha' x hx

theorem tabsAdd_some (d : Details) (tb : TabVal) (d1 : Details)
    (h : tabsAdd d tb = some d1) :
    (d.tabs.find? (fun x => x.node_id = tb.node_id)) = none
    ∧ d1 = { d with tabs := d.tabs ++ [tb] } := by
  unfold tabsAdd at h
  by_cases ha : (d.tabs.any (fun tb' => tb'.node_id = tb.node_id)) = true
  · rw [if_pos ha] at h
    exact absurd h (by simp)
  · rw [if_neg ha] at h
    have ha' : (d.tabs.any (fun tb' => tb'.node_id = tb.node_id)) = false := by simpa using ha
    rw [List.any_eq_false] at ha'
    refine ⟨?_, by simpa using h.symm⟩
    rw [List.find?_eq_none]
    intro x hx
    simpa using ha' x hx

theorem vnRezWin_spec (m : Model) (isFirst : Bool)
    (hFresh : ∀ nd ∈ m.tree.nodes, ¬ (freshId m.tree) ∈ nd.children)
    (hNodup : (m.tree.nodes.map (fun nd => nd.id)).Nodup) :
    ((vnRezWin m isFirst).2 = VN_NONE →
      ((vnRezWin m isFirst).1).tree.nodes = m.tree.nodes
      ∧ ((vnRezWin m isFirst).1).details = m.details)
    ∧ ((vnRezWin m isFirst).2 ≠ VN_NONE →
      ∃ w : WinVal,
        (vnRezWin m isFirst).2.val = some (Sum.inl w)
        ∧ w.node_id = (vnRezWin m isFirst).2.node_id
        ∧ winByNodeId ((vnRezWin m isFirst).1).details ((vnRezWin m isFirst).2.node_id)
            = some w
        ∧ (get_node ((vnRezWin m isFirst).1).tree ((vnRezWin m isFirst).2.node_id)).isSome
            = true) := by
  unfold vnRezWin
  cases hc : create_node m.tree jstreeRoot "Window"
      (if isFirst then InsertPos.pos 1 else InsertPos.last) with
  | none =>
    exact ⟨fun _ => ⟨rfl, rfl⟩, fun hne => absurd rfl hne⟩
  | some pr =>
    obtain ⟨nid, t1⟩ := pr
    have hid := create_node_id m.tree jstreeRoot "Window" _ nid t1 hc
    simp only
    cases hadd : winsAdd m.details
        { win_id := NONE, node_id := nid, win := none, raw_title := none,
          raw_bullet := none, isOpen := false, keep := none,
          ordered_url_hash := none } with
    | none =>
      simp only
      refine ⟨fun _ => ⟨?_, by simp⟩, fun hne => absurd rfl hne⟩
      exact create_rollback m.tree jstreeRoot "Window" _ nid t1 IT_WIN_TAG hc
        (hid ▸ hFresh) hNodup
    | some d1 =>
      obtain ⟨hnone, hd1⟩ := winsAdd_some _ _ _ hadd
      simp only
      constructor
      · intro hEq
        exact absurd hEq (by simp [VN_NONE])
      · intro _
        refine ⟨_, rfl, rfl, ?_, ?_⟩
        · simp only [refresh_icon_details, refresh_label_details]
          rw [hd1]
          unfold winByNodeId
          simp only
          rw [List.find?_append, hnone]
          simp
        · rw [refresh_icon_get_node_isSome, refresh_label_get_node_isSome]
          simp only
          rw [create_get_node_some m.tree jstreeRoot "Window" _ nid t1 IT_WIN_TAG hc]
          rfl

theorem vnRezTab_spec (m : Model) (vp : Vorny)
    (hFresh : ∀ nd ∈ m.tree.nodes, ¬ (freshId m.tree) ∈ nd.children)
    (hNodup : (m.tree.nodes.map (fun nd => nd.id)).Nodup) :
    ((vnRezTab m vp).2 = VN_NONE →
      ((vnRezTab m vp).1).tree.nodes = m.tree.nodes
      ∧ ((vnRezTab m vp).1).details = m.details)
    ∧ ((vnRezTab m vp).2 ≠ VN_NONE →
      ∃ tb : TabVal,
        (vnRezTab m vp).2.val = some (Sum.inr tb)
        ∧ tb.node_id = (vnRezTab m vp).2.node_id
        ∧ tabByNodeId ((vnRezTab m vp).1).details ((vnRezTab m vp).2.node_id)
            = some tb
        ∧ (get_node ((vnRezTab m vp).1).tree ((vnRezTab m vp).2.node_id)).isSome
            = true) := by
  unfold vnRezTab
  set pvn := vn_by_vorny m vp none with hpvn
  cases hv : pvn.val with
  | none =>
    simp only [hv]
    exact ⟨fun _ => ⟨by simp, by simp⟩, fun hne => absurd rfl hne⟩
  | some pval =>
    simp only [hv]
    by_cases hnid : pvn.node_id = ""
    · simp only [if_pos hnid]
      exact ⟨fun _ => ⟨by simp, by simp⟩, fun hne => absurd rfl hne⟩
    · simp only [if_neg hnid]
      cases hgp : get_node m.tree pvn.node_id with
      | none =>
        simp only
        exact ⟨fun _ => ⟨by simp, by simp⟩, fun hne => absurd rfl hne⟩
      | some parent_node =>
        simp only
        cases hc : create_node m.tree pvn.node_id "Tab" InsertPos.last with
        | none =>
          simp only
          exact ⟨fun _ => ⟨by simp, by simp⟩, fun hne => absurd rfl hne⟩
        | some pr =>
          obtain ⟨nid, t1⟩ := pr
          have hid := create_node_id m.tree pvn.node_id "Tab" _ nid t1 hc
          simp only
          cases hadd : tabsAdd m.details
              { tab_id := NONE, node_id := nid, win_id := NONE, index := NONE,
                tab := none, isOpen := false, isPinned := false,
                raw_url := none, raw_title := none, raw_favicon_url := none,
                raw_bullet := none } with
          | none =>
            simp only
            refine ⟨fun _ => ⟨?_, by simp⟩, fun hne => absurd rfl hne⟩
            exact create_rollback m.tree pvn.node_id "Tab" _ nid t1 IT_TAB_TAG hc
              (hid ▸ hFresh) hNodup
          | some d1 =>
            obtain ⟨hnone, hd1⟩ := tabsAdd_some _ _ _ hadd
            simp only
            constructor
            · intro hEq
              exact absurd hEq (by simp [VN_NONE])
            · intro _
              refine ⟨_, rfl, rfl, ?_, ?_⟩
              · simp only [refresh_icon_details, refresh_label_details]
                rw [hd1]
                unfold tabByNodeId
                simp only
                rw [List.find?_append, hnone]
                simp
              · rw [refresh_icon_get_node_isSome, refresh_label_get_node_isSome]
                simp only
                rw [create_get_node_some m.tree pvn.node_id "Tab" _ nid t1 IT_TAB_TAG hc]
                rfl

/-- C2: for both creation operations (`vnRezWin`, `vnRezTab`) the Tree View
node is created before the store record, and if the store insert fails the
just-created node is rolled back — the returned sentinel is `VN_NONE` and
the tree nodes and the store are exactly as before (observable content of
"create node first, roll back on insert failure"); on every successful
create the returned pair carries the new record, the record node_id
equals the returned node_id, looking the record up by that node id in the
Keyed Store succeeds, and the node exists in the Tree View (invariant 1).
The freshness/uniqueness hypotheses say the fresh node id is not dangling
in any children list and node ids are unique — the well-formedness the
external tree widget guarantees. -/
theorem rez_create_rollback_and_invariant :
    (∀ (m : Model) (isFirst : Bool),
        (∀ nd ∈ m.tree.nodes, ¬ (freshId m.tree) ∈ nd.children) →
        (m.tree.nodes.map (fun nd => nd.id)).Nodup →
        (((vnRezWin m isFirst).2 = VN_NONE →
          ((vnRezWin m isFirst).1).tree.nodes = m.tree.nodes
          ∧ ((vnRezWin m isFirst).1).details = m.details)
        ∧ ((vnRezWin m isFirst).2 ≠ VN_NONE →
          ∃ w : WinVal,
            (vnRezWin m isFirst).2.val = some (Sum.inl w)
            ∧ w.node_id = (vnRezWin m isFirst).2.node_id
            ∧ winByNodeId ((vnRezWin m isFirst).1).details
                ((vnRezWin m isFirst).2.node_id) = some w
            ∧ (get_node ((vnRezWin m isFirst).1).tree
                ((vnRezWin m isFirst).2.node_id)).isSome = true)))
    ∧ (∀ (m : Model) (vp : Vorny),
        (∀ nd ∈ m.tree.nodes, ¬ (freshId m.tree) ∈ nd.children) →
        (m.tree.nodes.map (fun nd => nd.id)).Nodup →
        (((vnRezTab m vp).2 = VN_NONE →
          ((vnRezTab m vp).1).tree.nodes = m.tree.nodes
          ∧ ((vnRezTab m vp).1).details = m.details)
        ∧ ((vnRezTab m vp).2 ≠ VN_NONE →
          ∃ tb : TabVal,
            (vnRezTab m vp).2.val = some (Sum.inr tb)
            ∧ tb.node_id = (vnRezTab m vp).2.node_id
            ∧ tabByNodeId ((vnRezTab m vp).1).details
                ((vnRezTab m vp).2.node_id) = some tb
            ∧ (get_node ((vnRezTab m vp).1).tree
                ((vnRezTab m vp).2.node_id)).isSome = true))) :=
  ⟨fun m i h1 h2 => vnRezWin_spec m i h1 h2,
   fun m vp h1 h2 => vnRezTab_spec m vp h1 h2⟩

set_option maxRecDepth 1000000 in
/-- Witness for C2 at the concrete fixture: a successful `vnRezWin` at the
root and a successful `vnRezTab` under window `w1`. -/
theorem rez_create_rollback_and_invariant_witness :
    (∃ w : WinVal,
      (vnRezWin fixModel false).2.val = some (Sum.inl w)
      ∧ w.node_id = (vnRezWin fixModel false).2.node_id
      ∧ winByNodeId ((vnRezWin fixModel false).1).details
          ((vnRezWin fixModel false).2.node_id) = some w
      ∧ (get_node ((vnRezWin fixModel false).1).tree
          ((vnRezWin fixModel false).2.node_id)).isSome = true)
    ∧ (∃ tb : TabVal,
      (vnRezTab fixModel (Vorny.nid "w1")).2.val = some (Sum.inr tb)
      ∧ tb.node_id = (vnRezTab fixModel (Vorny.nid "w1")).2.node_id
      ∧ tabByNodeId ((vnRezTab fixModel (Vorny.nid "w1")).1).details
          ((vnRezTab fixModel (Vorny.nid "w1")).2.node_id) = some tb
      ∧ (get_node ((vnRezTab fixModel (Vorny.nid "w1")).1).tree
          ((vnRezTab fixModel (Vorny.nid "w1")).2.node_id)).isSome = true) :=
  ⟨(rez_create_rollback_and_invariant.1 fixModel false (by decide) (by decide)).2 (by decide),
   (rez_create_rollback_and_invariant.2 fixModel (Vorny.nid "w1") (by decide) (by decide)).2 (by decide)⟩

/-! ## C3 -/

theorem get_node_delete_self (t : Tree) (n : NodeId) :
    get_node (delete_node t n) n = none := by
  unfold delete_node
  cases hg : get_node t n with
  | none => exact hg
  | some nd =>
    simp only
    unfold get_node
    rw [List.find?_eq_none]
    intro x hx
    obtain ⟨y, hy, hxy⟩ := List.mem_map.mp hx
    have hyk := List.mem_filter.mp hy
    have hyn : y.id ≠ n := by
      intro hcon
      have hmem : n ∈ subtreeIds t (t.nodes.length + 1) [n] := by
        simp only [subtreeIds]
        exact List.mem_cons_self n _
      have hcont : (subtreeIds t (t.nodes.length + 1) [n]).contains n = true := by
        rw [List.contains_iff_exists_mem_beq]
        exact ⟨n, hmem, by simp⟩
      have h2 := hyk.2
      rw [hcon, hcont] at h2
      simp at h2
    rw [← hxy]
    simpa using hyn

theorem get_node_delete_none (t : Tree) (n k : NodeId)
    (h : get_node t k = none) :
    get_node (delete_node t n) k = none := by
  unfold delete_node
  cases hg : get_node t n with
  | none => exact h
  | some nd =>
    simp only
    unfold get_node
    rw [List.find?_eq_none]
    intro x hx
    obtain ⟨y, hy, hxy⟩ := List.mem_map.mp hx
    have hyk := (List.mem_filter.mp hy).1
    unfold get_node at h
    rw [List.find?_eq_none] at h
    have := h y hyk
    rw [← hxy]
    simpa using this

theorem eraseTab_fail (m : Model) (v : Vorny) (m' : Model)
    (h : eraseTab m v = (m', false)) : m' = m := by
  unfold eraseTab at h
  set vn := vn_by_vorny m v (some ItemTy.tab) with hvn
  cases hv : vn.val with
  | none =>
    simp only [hv] at h
    exact (Prod.ext_iff.mp h.symm).1
  | some val =>
    cases val with
    | inl w =>
      simp only [hv] at h
      exact (Prod.ext_iff.mp h.symm).1
    | inr tb =>
      simp only [hv] at h
      cases hg : get_node m.tree vn.node_id with
      | none =>
        simp only [hg] at h
        exact (Prod.ext_iff.mp h.symm).1
      | some nd =>
        simp only [hg] at h
        by_cases hnid : vn.node_id = ""
        · rw [if_pos hnid] at h
          exact (Prod.ext_iff.mp h.symm).1
        · rw [if_neg hnid] at h
          exact absurd (Prod.ext_iff.mp h).2 (by simp)

theorem tabByNodeId_tabsRemove_self (d : Details) (n : NodeId) :
    tabByNodeId (tabsRemove d n) n = none := by
  simp only [tabByNodeId, tabsRemove]
  exact find?_key_filter_self (fun tb : TabVal => tb.node_id) d.tabs n

theorem tabByNodeId_tabsRemove_other (d : Details) (n k : NodeId) (hk : k ≠ n) :
    tabByNodeId (tabsRemove d n) k = tabByNodeId d k := by
  simp only [tabByNodeId, tabsRemove]
  exact find?_key_filter_ne (fun tb : TabVal => tb.node_id) d.tabs n k hk

theorem winByNodeId_winsRemove_self (d : Details) (n : NodeId) :
    winByNodeId (winsRemove d n) n = none := by
  simp only [winByNodeId, winsRemove]
  exact find?_key_filter_self (fun w : WinVal => w.node_id) d.windows n

/-- A successful `eraseTab` on a node-id reference removes exactly the key
`c` from the tab store and deletes the node (windows untouched). -/
theorem eraseTab_nid_true (m : Model) (c : NodeId) (m' : Model)
    (h : eraseTab m (Vorny.nid c) = (m', true)) :
    tabByNodeId m'.details c = none
    ∧ get_node m'.tree c = none
    ∧ m'.details.windows = m.details.windows
    ∧ (∀ x, x ≠ c → tabByNodeId m'.details x = tabByNodeId m.details x)
    ∧ (∀ x, tabByNodeId m.details x = none → tabByNodeId m'.details x = none)
    ∧ (∀ x, get_node m.tree x = none → get_node m'.tree x = none) := by
  unfold eraseTab at h
  by_cases hc : c = ""
  · rw [hc] at h
    simp only [vn_by_vorny, if_pos rfl] at h
    exact absurd (Prod.ext_iff.mp h).2 (by simp [VN_NONE])
  · rw [vn_nid_tab m c hc] at h
    cases htb : tabByNodeId m.details c with
    | none =>
      rw [htb] at h
      simp only [Option.map_none'] at h
      exact absurd (Prod.ext_iff.mp h).2 (by simp)
    | some tb =>
      rw [htb] at h
      simp only [Option.map_some'] at h
      cases hg : get_node m.tree c with
      | none =>
        rw [hg] at h
        exact absurd (Prod.ext_iff.mp h).2 (by simp)
      | some nd =>
        rw [hg] at h
        simp only [if_neg hc] at h
        have hm' : m' = { tree := delete_node m.tree c,
                          details := tabsRemove m.details c } := by
          have := (Prod.ext_iff.mp h).1
          exact this.symm
        subst hm'
        refine ⟨tabByNodeId_tabsRemove_self m.details c,
          get_node_delete_self m.tree c, rfl,
          fun x hx => tabByNodeId_tabsRemove_other m.details c x hx,
          fun x hx => ?_,
          fun x hx => get_node_delete_none m.tree c x hx⟩
        simp only [tabByNodeId, tabsRemove] at hx ⊢
        rw [List.find?_eq_none] at hx ⊢
        intro y hy
        exact hx y (List.mem_of_mem_filter hy)

theorem eraseChildren_windows (cs : List NodeId) (m : Model) :
    ((eraseChildren m cs).1).details.windows = m.details.windows := by
  induction cs generalizing m with
  | nil => rfl
  | cons c rest ih =>
    unfold eraseChildren
    cases het : eraseTab m (Vorny.nid c) with
    | mk m1 ok =>
      cases ok with
      | true =>
        simp only
        rw [ih m1]
        have h1 : (eraseTab m (Vorny.nid c)).1 = m1 := by rw [het]
        rw [← h1]
        exact eraseTab_windows_unchanged m (Vorny.nid c)
      | false =>
        simp only
        rw [eraseTab_fail m (Vorny.nid c) m1 het]

/-- On a successful child sweep every child is gone from the tab store and
the tree, and records keyed outside the list are untouched. -/
theorem eraseChildren_true_props (cs : List NodeId) (m m1 : Model)
    (h : eraseChildren m cs = (m1, true)) :
    (∀ c ∈ cs, tabByNodeId m1.details c = none ∧ get_node m1.tree c = none)
    ∧ (∀ x, ¬ x ∈ cs → tabByNodeId m1.details x = tabByNodeId m.details x) := by
  induction cs generalizing m with
  | nil =>
    unfold eraseChildren at h
    have : m1 = m := (Prod.ext_iff.mp h.symm).1
    subst this
    exact ⟨fun c hc => absurd hc (by simp), fun x _ => rfl⟩
  | cons c rest ih =>
    unfold eraseChildren at h
    cases het : eraseTab m (Vorny.nid c) with
    | mk mA ok =>
      rw [het] at h
      cases ok with
      | false => simp only at h; exact absurd (Prod.ext_iff.mp h).2 (by simp)
      | true =>
        simp only at h
        obtain ⟨herased, hother⟩ := ih mA h
        obtain ⟨hc1, hc2, _, hoth, habs, habs2⟩ := eraseTab_nid_true m c mA het
        constructor
        · intro x hx
          rcases List.mem_cons.mp hx with hxc | hxrest
          · subst hxc
            by_cases hxr : x ∈ rest
            · exact herased x hxr
            · constructor
              · rw [hother x hxr]
                exact hc1
              · -- node absence persists through eraseChildren
                have : ∀ (cs : List NodeId) (mm : Model) (k : NodeId),
                    get_node mm.tree k = none →
                    get_node ((eraseChildren mm cs).1).tree k = none := by
                  intro cs
                  induction cs with
                  | nil => intro mm k hk; exact hk
                  | cons d ds ihd =>
                    intro mm k hk
                    unfold eraseChildren
                    cases hed : eraseTab mm (Vorny.nid d) with
                    | mk mB okB =>
                      cases okB with
                      | false =>
                        simp only
                        rw [eraseTab_fail mm (Vorny.nid d) mB hed]
                        exact hk
                      | true =>
                        simp only
                        apply ihd mB
                        obtain ⟨_, _, _, _, _, hpres⟩ := eraseTab_nid_true mm d mB hed
                        exact hpres k hk
                have h1 : (eraseChildren mA rest).1 = m1 := by rw [h]
                rw [← h1]
                exact this rest mA x hc2
          · exact herased x hxrest
        · intro x hx
          have hxc : x ≠ c := fun hcon => hx (hcon ▸ List.mem_cons_self c rest)
          have hxrest : ¬ x ∈ rest := fun hcon => hx (List.mem_cons_of_mem c hcon)
          rw [hother x hxrest, hoth x hxc]

/-- Tab-record absence persists through a child sweep. -/
theorem eraseChildren_tab_none (cs : List NodeId) (m : Model) (k : NodeId)
    (hk : tabByNodeId m.details k = none) :
    tabByNodeId ((eraseChildren m cs).1).details k = none := by
  induction cs generalizing m with
  | nil => exact hk
  | cons c rest ih =>
    unfold eraseChildren
    cases het : eraseTab m (Vorny.nid c) with
    | mk mA ok =>
      cases ok with
      | false =>
        simp only
        rw [eraseTab_fail m (Vorny.nid c) mA het]
        exact hk
      | true =>
        simp only
        apply ih mA
        obtain ⟨_, _, _, _, hpres, _⟩ := eraseTab_nid_true m c mA het
        exact hpres k hk

/-- Decomposition of a failed child sweep. -/
theorem eraseChildren_false_decomp (cs : List NodeId) (m m1 : Model)
    (h : eraseChildren m cs = (m1, false)) :
    ∃ cs1 c cs2, cs = cs1 ++ c :: cs2
      ∧ eraseChildren m cs1 = (m1, true)
      ∧ eraseTab m1 (Vorny.nid c) = (m1, false) := by
  induction cs generalizing m with
  | nil =>
    unfold eraseChildren at h
    exact absurd (Prod.ext_iff.mp h).2 (by simp)
  | cons c rest ih =>
    unfold eraseChildren at h
    cases het : eraseTab m (Vorny.nid c) with
    | mk mA ok =>
      rw [het] at h
      cases ok with
      | false =>
        simp only at h
        have hm1 : mA = m1 := (Prod.ext_iff.mp h).1
        subst hm1
        have hmm : mA = m := eraseTab_fail m (Vorny.nid c) mA het
        rw [hmm] at het
        refine ⟨[], c, rest, rfl, ?_, ?_⟩
        · unfold eraseChildren
          rw [hmm]
        · rw [hmm]
          exact het
      | true =>
        simp only at h
        obtain ⟨cs1, c', cs2, hsplit, hok, hfail⟩ := ih mA h
        refine ⟨c :: cs1, c', cs2, by rw [hsplit, List.cons_append], ?_, hfail⟩
        unfold eraseChildren
        rw [het]
        simp only
        exact hok

/-- C3: `eraseWin` is valid in any item state (no precondition on the
record fields) and first erases every child tab in child order before
removing the window record and node.  On a true return the window record
and all child-tab records are absent from the Keyed Store and their nodes
absent from the Tree View.  On a false return some child erase failed: the
children split as `cs1 ++ c :: cs2` where every tab of `cs1` was erased,
the erase of `c` failed leaving the state unchanged at that point, the
later children `c :: cs2` still have their original records, and the
window record itself is still present (partially-erased subtree, operation
aborted). -/
theorem eraseWin_children_first_spec (m : Model) (nid : NodeId) (w : WinVal) (nd : TreeNode)
    (hw : winByNodeId m.details nid = some w) (hnid : nid ≠ "")
    (hn : get_node m.tree nid = some nd)
    (hdup : nd.children.Nodup) :
    ((eraseWin m (Vorny.nid nid)).2 = true →
       winByNodeId ((eraseWin m (Vorny.nid nid)).1).details nid = none
       ∧ (∀ c ∈ nd.children,
            tabByNodeId ((eraseWin m (Vorny.nid nid)).1).details c = none
            ∧ get_node ((eraseWin m (Vorny.nid nid)).1).tree c = none)
       ∧ get_node ((eraseWin m (Vorny.nid nid)).1).tree nid = none)
    ∧ ((eraseWin m (Vorny.nid nid)).2 = false →
       ∃ cs1 c cs2,
         nd.children = cs1 ++ c :: cs2
         ∧ eraseChildren m cs1 = ((eraseWin m (Vorny.nid nid)).1, true)
         ∧ eraseTab ((eraseWin m (Vorny.nid nid)).1) (Vorny.nid c)
             = ((eraseWin m (Vorny.nid nid)).1, false)
         ∧ winByNodeId ((eraseWin m (Vorny.nid nid)).1).details nid = some w
         ∧ (∀ x ∈ cs1, tabByNodeId ((eraseWin m (Vorny.nid nid)).1).details x = none)
         ∧ (∀ x ∈ c :: cs2,
              tabByNodeId ((eraseWin m (Vorny.nid nid)).1).details x
                = tabByNodeId m.details x)) := by
  unfold eraseWin
  rw [vn_nid_win m nid hnid]
  simp only [hw, Option.map_some']
  rw [if_neg hnid, hn]
  simp only
  cases he : eraseChildren m nd.children with
  | mk m1 ok =>
    cases ok with
    | true =>
      simp only
      constructor
      · intro _
        obtain ⟨herased, _⟩ := eraseChildren_true_props nd.children m m1 he
        refine ⟨winByNodeId_winsRemove_self m1.details nid, ?_, get_node_delete_self _ nid⟩
        intro c hc
        obtain ⟨h1, h2⟩ := herased c hc
        constructor
        · show tabByNodeId (winsRemove m1.details nid) c = none
          simpa [tabByNodeId, winsRemove] using h1
        · exact get_node_delete_none _ nid c h2
      · intro hcon
        exact absurd hcon (by simp)
    | false =>
      simp only
      constructor
      · intro hcon
        exact absurd hcon (by simp)
      · intro _
        obtain ⟨cs1, c, cs2, hsplit, hok, hfail⟩ :=
          eraseChildren_false_decomp nd.children m m1 he
        obtain ⟨herased1, hother⟩ := eraseChildren_true_props cs1 m m1 hok
        have hdisj : ∀ x ∈ c :: cs2, ¬ x ∈ cs1 := by
          rw [hsplit] at hdup
          intro x hx hx1
          exact (List.disjoint_of_nodup_append hdup) hx1 hx
        refine ⟨cs1, c, cs2, hsplit, hok, hfail, ?_, ?_, ?_⟩
        · unfold winByNodeId
          have hwin : m1.details.windows = m.details.windows := by
            have h1 : (eraseChildren m cs1).1 = m1 := by rw [hok]
            rw [← h1]
            exact eraseChildren_windows cs1 m
          rw [hwin]
          exact hw
        · intro x hx
          exact (herased1 x hx).1
        · intro x hx
          exact hother x (hdisj x hx)

set_option maxRecDepth 1000000 in
/-- Witness for C3 at the concrete fixture: erasing window `w1` (one child
tab `t1`) succeeds and empties both stores and the tree of the subtree. -/
theorem eraseWin_children_first_spec_witness :
    winByNodeId ((eraseWin fixModel (Vorny.nid "w1")).1).details "w1" = none
    ∧ (∀ c ∈ fixW1Node.children,
         tabByNodeId ((eraseWin fixModel (Vorny.nid "w1")).1).details c = none
         ∧ get_node ((eraseWin fixModel (Vorny.nid "w1")).1).tree c = none)
    ∧ get_node ((eraseWin fixModel (Vorny.nid "w1")).1).tree "w1" = none :=
  (eraseWin_children_first_spec fixModel "w1" fixW1 fixW1Node rfl (by decide)
    rfl (by decide)).1 (by decide)



/-! ## C1 and C4: updateOrderedURLHash branch semantics, hash ownership,
and the never-stale guarantee

`setHash m nid h` abbreviates the store update performed by
`D.windows.change_key(parent_val, 'ordered_url_hash', h)` in the keyed
store model: the window record keyed `nid` gets `ordered_url_hash := h`. -/

/-- Shorthand: the model with the window keyed `nid` given hash `h`. -/
def setHash (m : Model) (nid : NodeId) (h : Option String) : Model :=
  let d := winsSet m.details nid (fun x => { x with ordered_url_hash := h })
  { m with details := d }

theorem uh_clear_missing (m : Model) (nid : NodeId) (w : WinVal) (nd : TreeNode)
    (hw : winByNodeId m.details nid = some w) (hnid : nid ≠ "")
    (hn : get_node m.tree nid = some nd)
    (hcu : childUrls m.details nd.children = none) :
    updateOrderedURLHash m (Vorny.nid nid) = (setHash m nid none, false) := by
  unfold updateOrderedURLHash
  rw [vn_nid_win m nid hnid]
  simp only [hw, Option.map_some']
  rw [if_neg hnid, hn]
  simp only [hcu]
  rfl

theorem uh_same_owner (m : Model) (nid : NodeId) (w : WinVal) (nd : TreeNode)
    (urls : List String)
    (hw : winByNodeId m.details nid = some w) (hnid : nid ≠ "")
    (hn : get_node m.tree nid = some nd)
    (hcu : childUrls m.details nd.children = some urls)
    (other : WinVal)
    (hown : winByOrderedUrlHash m.details (orderedHashOfStrings urls) = some other)
    (hsame : other.node_id = w.node_id) :
    updateOrderedURLHash m (Vorny.nid nid) = (m, true) := by
  unfold updateOrderedURLHash
  rw [vn_nid_win m nid hnid]
  simp only [hw, Option.map_some']
  rw [if_neg hnid, hn]
  simp only [hcu, hown]
  rw [if_pos hsame]

theorem uh_other_owner (m : Model) (nid : NodeId) (w : WinVal) (nd : TreeNode)
    (urls : List String)
    (hw : winByNodeId m.details nid = some w) (hnid : nid ≠ "")
    (hn : get_node m.tree nid = some nd)
    (hcu : childUrls m.details nd.children = some urls)
    (other : WinVal)
    (hown : winByOrderedUrlHash m.details (orderedHashOfStrings urls) = some other)
    (hdiff : other.node_id ≠ w.node_id) :
    updateOrderedURLHash m (Vorny.nid nid) = (setHash m nid none, false) := by
  unfold updateOrderedURLHash
  rw [vn_nid_win m nid hnid]
  simp only [hw, Option.map_some']
  rw [if_neg hnid, hn]
  simp only [hcu, hown]
  rw [if_neg hdiff]
  rfl

theorem uh_no_owner (m : Model) (nid : NodeId) (w : WinVal) (nd : TreeNode)
    (urls : List String)
    (hw : winByNodeId m.details nid = some w) (hnid : nid ≠ "")
    (hn : get_node m.tree nid = some nd)
    (hcu : childUrls m.details nd.children = some urls)
    (hown : winByOrderedUrlHash m.details (orderedHashOfStrings urls) = none) :
    updateOrderedURLHash m (Vorny.nid nid)
      = (setHash m nid (some (orderedHashOfStrings urls)), true) := by
  unfold updateOrderedURLHash
  rw [vn_nid_win m nid hnid]
  simp only [hw, Option.map_some']
  rw [if_neg hnid, hn]
  simp only [hcu, hown]
  rfl

theorem updateOrderedURLHash_tree (m : Model) (v : Vorny) :
    ((updateOrderedURLHash m v).1).tree = m.tree := by
  unfold updateOrderedURLHash
  set vn := vn_by_vorny m v (some ItemTy.win) with hvn
  cases hv : vn.val with
  | none => simp [hv]
  | some val =>
    cases val with
    | inr tb => simp [hv]
    | inl w =>
      simp only [hv]
      by_cases hnid : vn.node_id = ""
      · simp [hnid]
      · rw [if_neg hnid]
        cases hg : get_node m.tree vn.node_id with
        | none => simp [hg]
        | some nd =>
          simp only [hg]
          cases hcu : childUrls m.details nd.children with
          | none => simp [hcu]
          | some urls =>
            simp only [hcu]
            cases hown : winByOrderedUrlHash m.details (orderedHashOfStrings urls) with
            | none => simp [hown]
            | some other =>
              simp only [hown]
              split <;> rfl

theorem updateOrderedURLHash_tabs (m : Model) (v : Vorny) :
    ((updateOrderedURLHash m v).1).details.tabs = m.details.tabs := by
  unfold updateOrderedURLHash
  set vn := vn_by_vorny m v (some ItemTy.win) with hvn
  cases hv : vn.val with
  | none => simp [hv]
  | some val =>
    cases val with
    | inr tb => simp [hv]
    | inl w =>
      simp only [hv]
      by_cases hnid : vn.node_id = ""
      · simp [hnid]
      · rw [if_neg hnid]
        cases hg : get_node m.tree vn.node_id with
        | none => simp [hg]
        | some nd =>
          simp only [hg]
          cases hcu : childUrls m.details nd.children with
          | none => simp [hcu, winsSet]
          | some urls =>
            simp only [hcu]
            cases hown : winByOrderedUrlHash m.details (orderedHashOfStrings urls) with
            | none => simp [hown, winsSet]
            | some other =>
              simp only [hown]
              split
              · rfl
              · simp [winsSet]

theorem childUrls_congr (d d' : Details) (h : d.tabs = d'.tabs) :
    ∀ cs : List NodeId, childUrls d cs = childUrls d' cs := by
  intro cs
  induction cs with
  | nil => rfl
  | cons c rest ih =>
    unfold childUrls
    have : tabByNodeId d c = tabByNodeId d' c := by
      unfold tabByNodeId
      rw [h]
    rw [this, ih]



theorem findHash_after_set (l : List WinVal) (n : NodeId) (h : String)
    (hnone : l.find? (fun x => x.ordered_url_hash = some h) = none)
    (hex : (l.find? (fun x => x.node_id = n)).isSome = true) :
    ∃ other,
      (l.map (fun x => if x.node_id = n then { x with ordered_url_hash := some h } else x)).find?
        (fun x => x.ordered_url_hash = some h) = some other
      ∧ other.node_id = n := by
  induction l with
  | nil => simp at hex
  | cons a t ih =>
    by_cases hk : a.node_id = n
    · refine ⟨{ a with ordered_url_hash := some h }, ?_, by simpa using hk⟩
      rw [List.map_cons, if_pos hk]
      rw [List.find?_cons_of_pos _ (by simp)]
    · rw [List.find?_cons_of_neg _ (by simp [hk])] at hex
      have hna : ¬ (a.ordered_url_hash = some h) := by
        intro hcon
        rw [List.find?_cons_of_pos _ (by simpa using hcon)] at hnone
        exact absurd hnone (by simp)
      rw [List.find?_cons_of_neg _ (by simpa using hna)] at hnone
      obtain ⟨other, hfind, hid⟩ := ih hnone hex
      refine ⟨other, ?_, hid⟩
      rw [List.map_cons, if_neg hk]
      rw [List.find?_cons_of_neg _ (by simpa using hna), hfind]

theorem findHash_after_clear (l : List WinVal) (n : NodeId) (h : String) (owner : WinVal)
    (hfind : l.find? (fun x => x.ordered_url_hash = some h) = some owner)
    (hok : owner.node_id ≠ n) :
    (l.map (fun x => if x.node_id = n then { x with ordered_url_hash := none } else x)).find?
      (fun x => x.ordered_url_hash = some h) = some owner := by
  induction l with
  | nil => simp at hfind
  | cons a t ih =>
    by_cases hpa : a.ordered_url_hash = some h
    · rw [List.find?_cons_of_pos _ (by simpa using hpa)] at hfind
      have ha : a = owner := by simpa using hfind
      subst ha
      rw [List.map_cons, if_neg hok]
      rw [List.find?_cons_of_pos _ (by simpa using hpa)]
    · rw [List.find?_cons_of_neg _ (by simpa using hpa)] at hfind
      rw [List.map_cons]
      have : ¬ ((if a.node_id = n then { a with ordered_url_hash := none } else a).ordered_url_hash = some h) := by
        split
        · simp
        · simpa using hpa
      rw [List.find?_cons_of_neg _ (by simpa using this)]
      exact ih hfind



theorem uh_two_windows (m : Model) (nid1 nid2 : NodeId)
    (w1 w2 : WinVal) (nd1 nd2 : TreeNode) (urls : List String)
    (hne : nid1 ≠ nid2)
    (hw1 : winByNodeId m.details nid1 = some w1) (h1 : nid1 ≠ "")
    (hn1 : get_node m.tree nid1 = some nd1)
    (hw2 : winByNodeId m.details nid2 = some w2) (h2 : nid2 ≠ "")
    (hn2 : get_node m.tree nid2 = some nd2)
    (hcu1 : childUrls m.details nd1.children = some urls)
    (hcu2 : childUrls m.details nd2.children = some urls)
    (hthird : ∀ x ∈ m.details.windows,
        x.ordered_url_hash = some (orderedHashOfStrings urls) →
        x.node_id = nid1 ∨ x.node_id = nid2)
    (hNodup : (m.details.windows.map (fun x => x.node_id)).Nodup) :
    ∃ wa wb,
      winByNodeId ((updateOrderedURLHash
          ((updateOrderedURLHash m (Vorny.nid nid1)).1) (Vorny.nid nid2)).1).details nid1
        = some wa
      ∧ winByNodeId ((updateOrderedURLHash
          ((updateOrderedURLHash m (Vorny.nid nid1)).1) (Vorny.nid nid2)).1).details nid2
        = some wb
      ∧ ((wa.ordered_url_hash = some (orderedHashOfStrings urls)
            ∧ wb.ordered_url_hash = none)
        ∨ (wa.ordered_url_hash = none
            ∧ wb.ordered_url_hash = some (orderedHashOfStrings urls))) := by
  have hw1id : w1.node_id = nid1 := by simpa using List.find?_some hw1
  have hw2id : w2.node_id = nid2 := by simpa using List.find?_some hw2
  have hw1mem : w1 ∈ m.details.windows := List.mem_of_find?_eq_some hw1
  have hw2mem : w2 ∈ m.details.windows := List.mem_of_find?_eq_some hw2
  cases hown : winByOrderedUrlHash m.details (orderedHashOfStrings urls) with
  | none =>
    have e1 := uh_no_owner m nid1 w1 nd1 urls hw1 h1 hn1 hcu1 hown
    rw [e1]
    simp only
    set m1 := setHash m nid1 (some (orderedHashOfStrings urls)) with hm1
    have htabs : m1.details.tabs = m.details.tabs := rfl
    have hw2' : winByNodeId m1.details nid2 = some w2 := by
      rw [hm1]
      show winByNodeId (winsSet m.details nid1 _) nid2 = some w2
      rw [winByNodeId_winsSet_other]
      · exact hw2
      · intro x; rfl
      · exact Ne.symm hne
    have hn2' : get_node m1.tree nid2 = some nd2 := hn2
    have hcu2' : childUrls m1.details nd2.children = some urls := by
      rw [childUrls_congr m1.details m.details htabs]
      exact hcu2
    obtain ⟨other, hfind', hid'⟩ :=
      findHash_after_set m.details.windows nid1 (orderedHashOfStrings urls)
        (by simpa [winByOrderedUrlHash] using hown)
        (by unfold winByNodeId at hw1; rw [hw1]; rfl)
    have hown' : winByOrderedUrlHash m1.details (orderedHashOfStrings urls) = some other := by
      simpa [winByOrderedUrlHash, hm1, setHash, winsSet] using hfind'
    have e2 := uh_other_owner m1 nid2 w2 nd2 urls hw2' h2 hn2' hcu2' other hown'
      (by rw [hid', hw2id]; exact hne)
    rw [e2]
    refine ⟨{ w1 with ordered_url_hash := some (orderedHashOfStrings urls) },
      { w2 with ordered_url_hash := none }, ?_, ?_, Or.inl ⟨rfl, rfl⟩⟩
    · show winByNodeId (winsSet m1.details nid2 _) nid1 = _
      rw [winByNodeId_winsSet_other]
      · rw [hm1]
        show winByNodeId (winsSet m.details nid1 _) nid1 = _
        rw [winByNodeId_winsSet_self]
        · rw [hw1]; rfl
        · intro x; rfl
      · intro x; rfl
      · exact hne
    · show winByNodeId (winsSet m1.details nid2 _) nid2 = _
      rw [winByNodeId_winsSet_self]
      · rw [hw2']; rfl
      · intro x; rfl
  | some owner =>
    have hownmem : owner ∈ m.details.windows := List.mem_of_find?_eq_some hown
    have hownhash : owner.ordered_url_hash = some (orderedHashOfStrings urls) := by
      simpa using List.find?_some hown
    rcases hthird owner hownmem hownhash with hid1 | hid2
    · -- owner is window 1: first call keeps, second call clears w2
      have e1 := uh_same_owner m nid1 w1 nd1 urls hw1 h1 hn1 hcu1 owner hown
        (by rw [hid1, hw1id])
      rw [e1]
      simp only
      have e2 := uh_other_owner m nid2 w2 nd2 urls hw2 h2 hn2 hcu2 owner hown
        (by rw [hid1, hw2id]; exact hne)
      rw [e2]
      have hw1owner : w1 = owner :=
        List.inj_on_of_nodup_map hNodup hw1mem hownmem (by rw [hw1id, hid1])
      refine ⟨w1, { w2 with ordered_url_hash := none }, ?_, ?_,
        Or.inl ⟨by rw [hw1owner]; exact hownhash, rfl⟩⟩
      · show winByNodeId (winsSet m.details nid2 _) nid1 = _
        rw [winByNodeId_winsSet_other]
        · exact hw1
        · intro x; rfl
        · exact hne
      · show winByNodeId (winsSet m.details nid2 _) nid2 = _
        rw [winByNodeId_winsSet_self]
        · rw [hw2]; rfl
        · intro x; rfl
    · -- owner is window 2: first call clears w1, second call keeps w2
      have e1 := uh_other_owner m nid1 w1 nd1 urls hw1 h1 hn1 hcu1 owner hown
        (by rw [hid2, hw1id]; exact Ne.symm hne)
      rw [e1]
      simp only
      set m1 := setHash m nid1 none with hm1
      have htabs : m1.details.tabs = m.details.tabs := rfl
      have hw2' : winByNodeId m1.details nid2 = some w2 := by
        rw [hm1]
        show winByNodeId (winsSet m.details nid1 _) nid2 = some w2
        rw [winByNodeId_winsSet_other]
        · exact hw2
        · intro x; rfl
        · exact Ne.symm hne
      have hn2' : get_node m1.tree nid2 = some nd2 := hn2
      have hcu2' : childUrls m1.details nd2.children = some urls := by
        rw [childUrls_congr m1.details m.details htabs]
        exact hcu2
      have hown' : winByOrderedUrlHash m1.details (orderedHashOfStrings urls) = some owner := by
        have := findHash_after_clear m.details.windows nid1 (orderedHashOfStrings urls) owner
          (by simpa [winByOrderedUrlHash] using hown) (by rw [hid2]; exact Ne.symm hne)
        simpa [winByOrderedUrlHash, hm1, setHash, winsSet] using this
      have e2 := uh_same_owner m1 nid2 w2 nd2 urls hw2' h2 hn2' hcu2' owner hown'
        (by rw [hid2, hw2id])
      rw [e2]
      have hw2owner : w2 = owner :=
        List.inj_on_of_nodup_map hNodup hw2mem hownmem (by rw [hw2id, hid2])
      refine ⟨{ w1 with ordered_url_hash := none }, w2, ?_, ?_,
        Or.inr ⟨rfl, by rw [hw2owner]; exact hownhash⟩⟩
      · rw [hm1]
        show winByNodeId (winsSet m.details nid1 _) nid1 = _
        rw [winByNodeId_winsSet_self]
        · rw [hw1]; rfl
        · intro x; rfl
      · exact hw2'



theorem countP_nodeid_le_one (l : List WinVal) (n : NodeId)
    (hNodup : (l.map (fun x => x.node_id)).Nodup) :
    l.countP (fun x => x.node_id = n) ≤ 1 := by
  induction l with
  | nil => simp
  | cons a t ih =>
    simp only [List.map_cons, List.nodup_cons] at hNodup
    obtain ⟨hna, hnd⟩ := hNodup
    by_cases ha : a.node_id = n
    · rw [List.countP_cons_of_pos _ _ (by simpa using ha)]
      have hz : t.countP (fun x => x.node_id = n) = 0 := by
        rw [List.countP_eq_zero]
        intro x hx
        simp only [decide_eq_true_eq]
        intro hxn
        have hmem : x.node_id ∈ t.map (fun x => x.node_id) :=
          List.mem_map_of_mem _ hx
        rw [hxn, ← ha] at hmem
        exact hna hmem
      omega
    · rw [List.countP_cons_of_neg _ _ (by simpa using ha)]
      exact ih hnd

theorem countP_hash_clear (l : List WinVal) (n : NodeId) (g : String)
    (hle : l.countP (fun x => x.ordered_url_hash = some g) ≤ 1) :
    (l.map (fun w => if w.node_id = n then { w with ordered_url_hash := none } else w)).countP
      (fun x => x.ordered_url_hash = some g) ≤ 1 := by
  rw [List.countP_map]
  refine le_trans (List.countP_mono_left ?_) hle
  intro x hx hpx
  simp only [Function.comp_apply] at hpx
  by_cases hid : x.node_id = n
  · simp [hid] at hpx
  · simpa [hid] using hpx

theorem countP_hash_set (l : List WinVal) (n : NodeId) (g h : String)
    (hnone : l.find? (fun x => x.ordered_url_hash = some h) = none)
    (hNodup : (l.map (fun x => x.node_id)).Nodup)
    (hle : l.countP (fun x => x.ordered_url_hash = some g) ≤ 1) :
    (l.map (fun w => if w.node_id = n then { w with ordered_url_hash := some h } else w)).countP
      (fun x => x.ordered_url_hash = some g) ≤ 1 := by
  rw [List.countP_map]
  by_cases hg : g = h
  · subst hg
    have hkey : ∀ x ∈ l, ¬ (x.ordered_url_hash = some g) := by
      intro x hx
      have := List.find?_eq_none.mp hnone x hx
      simpa using this
    refine le_trans (List.countP_mono_left ?_) (countP_nodeid_le_one l n hNodup)
    intro x hx hpx
    simp only [Function.comp_apply] at hpx
    by_cases hid : x.node_id = n
    · simpa using hid
    · exfalso
      simp only [hid, if_neg, decide_eq_true_eq] at hpx
      exact hkey x hx (by simpa [hid] using hpx)
  · refine le_trans (List.countP_mono_left ?_) hle
    intro x hx hpx
    simp only [Function.comp_apply] at hpx
    by_cases hid : x.node_id = n
    · exfalso
      simp only [hid, if_pos, decide_eq_true_eq] at hpx
      exact hg (by injection hpx with hh; exact hh.symm) 
    · simpa [hid] using hpx

theorem uh_at_most_one (m : Model) (v : Vorny) (g : String)
    (hNodup : (m.details.windows.map (fun x => x.node_id)).Nodup)
    (hle : m.details.windows.countP (fun x => x.ordered_url_hash = some g) ≤ 1) :
    ((updateOrderedURLHash m v).1).details.windows.countP
      (fun x => x.ordered_url_hash = some g) ≤ 1 := by
  unfold updateOrderedURLHash
  set vn := vn_by_vorny m v (some ItemTy.win) with hvn
  cases hv : vn.val with
  | none => simp only [hv]; simpa using hle
  | some val =>
    cases val with
    | inr tv => simp only [hv]; simpa using hle
    | inl wv =>
      simp only [hv]
      by_cases hnid : vn.node_id = ""
      · rw [if_pos hnid]; simpa using hle
      · rw [if_neg hnid]
        cases hn : get_node m.tree vn.node_id with
        | none => simp only [hn]; simpa using hle
        | some nd =>
          simp only [hn]
          cases hcu : childUrls m.details nd.children with
          | none =>
            simp only [hcu, winsSet]
            exact countP_hash_clear m.details.windows vn.node_id g hle
          | some urls =>
            simp only [hcu]
            cases how : winByOrderedUrlHash m.details (orderedHashOfStrings urls) with
            | some other =>
              simp only [how]
              by_cases hsame : other.node_id = wv.node_id
              · rw [if_pos hsame]; simpa using hle
              · rw [if_neg hsame]
                simp only [winsSet]
                exact countP_hash_clear m.details.windows vn.node_id g hle
            | none =>
              simp only [how, winsSet]
              exact countP_hash_set m.details.windows vn.node_id g
                (orderedHashOfStrings urls)
                (by simpa [winByOrderedUrlHash] using how) hNodup hle



def fixHRoot : TreeNode :=
  { id := "#", parent := "", children := ["hw1", "hw2"], text := "",
    icon := none, multitypes := [], opened := true }

def fixHW1Node : TreeNode :=
  { id := "hw1", parent := "#", children := ["a1", "a2"], text := "A",
    icon := none, multitypes := ["win"], opened := false }

def fixHW2Node : TreeNode :=
  { id := "hw2", parent := "#", children := ["b1", "b2"], text := "B",
    icon := none, multitypes := ["win"], opened := false }

def fixHTab (nid : NodeId) (u t : String) : TabVal :=
  { tab_id := NONE, node_id := nid, win_id := NONE, index := NONE,
    tab := none, isOpen := false, isPinned := false,
    raw_url := some u, raw_title := some t,
    raw_favicon_url := none, raw_bullet := none }

def fixHW1 : WinVal :=
  { win_id := NONE, node_id := "hw1", win := none, raw_title := some "A",
    raw_bullet := none, isOpen := false, keep := some true,
    ordered_url_hash := none }

def fixHW2 : WinVal :=
  { win_id := NONE, node_id := "hw2", win := none, raw_title := some "B",
    raw_bullet := none, isOpen := false, keep := some true,
    ordered_url_hash := none }

def fixHTabNode (nid pid t : NodeId) : TreeNode :=
  { id := nid, parent := pid, children := [], text := t,
    icon := none, multitypes := ["tab"], opened := false }

def fixModelH : Model :=
  let ns := [fixHRoot, fixHW1Node, fixHW2Node,
             fixHTabNode "a1" "hw1" "X", fixHTabNode "a2" "hw1" "Y",
             fixHTabNode "b1" "hw2" "X", fixHTabNode "b2" "hw2" "Y"]
  let ts := [fixHTab "a1" "http://x" "X", fixHTab "a2" "http://y" "Y",
             fixHTab "b1" "http://x" "X", fixHTab "b2" "http://y" "Y"]
  { tree := { nodes := ns, counter := 20 },
    details := { windows := [fixHW1, fixHW2], tabs := ts } }

/-- **C1**: ownership discipline of `updateOrderedURLHash` for a window
item whose children's URLs all resolve.  (i) If the same window already
owns the computed hash, the call returns true and the model is unchanged;
(ii) if a different window owns it, this window's `ordered_url_hash` is
cleared to null and the call returns false; (iii) if no window owns it,
the hash is stored on this window and the call returns true.  (iv) After
calling it on two windows with identical ordered child-URL sequences,
exactly one of them holds the shared hash and the other holds null.
(v) With node ids unique, "at most one window holds any given non-null
ordered_url_hash" is preserved by every call. -/
theorem updateOrderedURLHash_ownership (m : Model) (nid1 nid2 : NodeId)
    (w1 w2 : WinVal) (nd1 nd2 : TreeNode) (urls : List String)
    (hne : nid1 ≠ nid2)
    (hw1 : winByNodeId m.details nid1 = some w1) (h1 : nid1 ≠ "")
    (hn1 : get_node m.tree nid1 = some nd1)
    (hw2 : winByNodeId m.details nid2 = some w2) (h2 : nid2 ≠ "")
    (hn2 : get_node m.tree nid2 = some nd2)
    (hcu1 : childUrls m.details nd1.children = some urls)
    (hcu2 : childUrls m.details nd2.children = some urls)
    (hthird : ∀ x ∈ m.details.windows,
        x.ordered_url_hash = some (orderedHashOfStrings urls) →
        x.node_id = nid1 ∨ x.node_id = nid2)
    (hNodup : (m.details.windows.map (fun x => x.node_id)).Nodup) :
    (∀ other, winByOrderedUrlHash m.details (orderedHashOfStrings urls) = some other →
        other.node_id = w1.node_id →
        updateOrderedURLHash m (Vorny.nid nid1) = (m, true))
    ∧ (∀ other, winByOrderedUrlHash m.details (orderedHashOfStrings urls) = some other →
        other.node_id ≠ w1.node_id →
        updateOrderedURLHash m (Vorny.nid nid1) = (setHash m nid1 none, false))
    ∧ (winByOrderedUrlHash m.details (orderedHashOfStrings urls) = none →
        updateOrderedURLHash m (Vorny.nid nid1)
          = (setHash m nid1 (some (orderedHashOfStrings urls)), true))
    ∧ (∃ wa wb,
        winByNodeId ((updateOrderedURLHash
            ((updateOrderedURLHash m (Vorny.nid nid1)).1) (Vorny.nid nid2)).1).details nid1
          = some wa
        ∧ winByNodeId ((updateOrderedURLHash
            ((updateOrderedURLHash m (Vorny.nid nid1)).1) (Vorny.nid nid2)).1).details nid2
          = some wb
        ∧ ((wa.ordered_url_hash = some (orderedHashOfStrings urls)
              ∧ wb.ordered_url_hash = none)
          ∨ (wa.ordered_url_hash = none
              ∧ wb.ordered_url_hash = some (orderedHashOfStrings urls))))
    ∧ (∀ (v : Vorny) (g : String),
        m.details.windows.countP (fun x => x.ordered_url_hash = some g) ≤ 1 →
        ((updateOrderedURLHash m v).1).details.windows.countP
          (fun x => x.ordered_url_hash = some g) ≤ 1) :=
  ⟨fun other hown hsame =>
      uh_same_owner m nid1 w1 nd1 urls hw1 h1 hn1 hcu1 other hown hsame,
   fun other hown hdiff =>
      uh_other_owner m nid1 w1 nd1 urls hw1 h1 hn1 hcu1 other hown hdiff,
   fun hown => uh_no_owner m nid1 w1 nd1 urls hw1 h1 hn1 hcu1 hown,
   uh_two_windows m nid1 nid2 w1 w2 nd1 nd2 urls hne hw1 h1 hn1 hw2 h2 hn2
      hcu1 hcu2 hthird hNodup,
   fun v g hle => uh_at_most_one m v g hNodup hle⟩

theorem updateOrderedURLHash_ownership_witness :
    childUrls fixModelH.details fixHW1Node.children = some ["http://x", "http://y"]
    ∧ childUrls fixModelH.details fixHW2Node.children = some ["http://x", "http://y"]
    ∧ (∃ wa wb,
        winByNodeId ((updateOrderedURLHash
            ((updateOrderedURLHash fixModelH (Vorny.nid "hw1")).1)
            (Vorny.nid "hw2")).1).details "hw1" = some wa
        ∧ winByNodeId ((updateOrderedURLHash
            ((updateOrderedURLHash fixModelH (Vorny.nid "hw1")).1)
            (Vorny.nid "hw2")).1).details "hw2" = some wb
        ∧ ((wa.ordered_url_hash = some (orderedHashOfStrings ["http://x", "http://y"])
              ∧ wb.ordered_url_hash = none)
          ∨ (wa.ordered_url_hash = none
              ∧ wb.ordered_url_hash
                  = some (orderedHashOfStrings ["http://x", "http://y"])))) :=
  ⟨rfl, rfl,
   (updateOrderedURLHash_ownership fixModelH "hw1" "hw2" fixHW1 fixHW2
      fixHW1Node fixHW2Node ["http://x", "http://y"]
      (by decide) rfl (by decide) rfl rfl (by decide) rfl rfl rfl
      (by
        intro x hx hh
        exfalso
        rcases List.mem_cons.mp hx with he | hx2
        · rw [he] at hh; simp [fixHW1] at hh
        · rcases List.mem_cons.mp hx2 with he | hx3
          · rw [he] at hh; simp [fixHW2] at hh
          · exact absurd hx3 (List.not_mem_nil x))
      (by decide)).2.2.2.1⟩



/-- **C4**: for a window item resolved by `updateOrderedURLHash`, if any
current child lacks a resolvable `raw_url` in the tab store, the window's
`ordered_url_hash` is cleared to null and the call returns false; and any
false return leaves the window's `ordered_url_hash` falsy (null)
afterwards. -/
theorem updateOrderedURLHash_never_stale (m : Model) (nid : NodeId)
    (w : WinVal) (nd : TreeNode)
    (hw : winByNodeId m.details nid = some w) (hnid : nid ≠ "")
    (hn : get_node m.tree nid = some nd) :
    (childUrls m.details nd.children = none →
      updateOrderedURLHash m (Vorny.nid nid) = (setHash m nid none, false)
      ∧ winByNodeId (setHash m nid none).details nid
          = some { w with ordered_url_hash := none })
    ∧ ((updateOrderedURLHash m (Vorny.nid nid)).2 = false →
      ∃ w2,
        winByNodeId ((updateOrderedURLHash m (Vorny.nid nid)).1).details nid
          = some w2
        ∧ w2.ordered_url_hash = none) := by
  have hself : winByNodeId (setHash m nid none).details nid
      = some { w with ordered_url_hash := none } := by
    show winByNodeId (winsSet m.details nid _) nid = _
    rw [winByNodeId_winsSet_self]
    · rw [hw]; rfl
    · intro x; rfl
  constructor
  · intro hcu
    exact ⟨uh_clear_missing m nid w nd hw hnid hn hcu, hself⟩
  · intro hfalse
    cases hcu : childUrls m.details nd.children with
    | none =>
      rw [uh_clear_missing m nid w nd hw hnid hn hcu]
      exact ⟨{ w with ordered_url_hash := none }, hself, rfl⟩
    | some urls =>
      cases hown : winByOrderedUrlHash m.details (orderedHashOfStrings urls) with
      | none =>
        exfalso
        rw [uh_no_owner m nid w nd urls hw hnid hn hcu hown] at hfalse
        exact Bool.noConfusion hfalse
      | some other =>
        by_cases hsame : other.node_id = w.node_id
        · exfalso
          rw [uh_same_owner m nid w nd urls hw hnid hn hcu other hown hsame] at hfalse
          exact Bool.noConfusion hfalse
        · rw [uh_other_owner m nid w nd urls hw hnid hn hcu other hown hsame]
          exact ⟨{ w with ordered_url_hash := none }, hself, rfl⟩

def fixSTab : TabVal :=
  { tab_id := NONE, node_id := "st", win_id := NONE, index := NONE,
    tab := none, isOpen := false, isPinned := false,
    raw_url := none, raw_title := none,
    raw_favicon_url := none, raw_bullet := none }

def fixSWNode : TreeNode :=
  { id := "sw", parent := "#", children := ["st"], text := "S",
    icon := none, multitypes := ["win"], opened := false }

def fixSW : WinVal :=
  { win_id := NONE, node_id := "sw", win := none, raw_title := some "S",
    raw_bullet := none, isOpen := false, keep := some true,
    ordered_url_hash := some "stale" }

def fixSRoot : TreeNode :=
  { id := "#", parent := "", children := ["sw"], text := "",
    icon := none, multitypes := [], opened := true }

def fixModelS : Model :=
  { tree := { nodes := [fixSRoot, fixSWNode, fixHTabNode "st" "sw" "T"],
              counter := 30 },
    details := { windows := [fixSW], tabs := [fixSTab] } }

theorem updateOrderedURLHash_never_stale_witness :
    updateOrderedURLHash fixModelS (Vorny.nid "sw")
      = (setHash fixModelS "sw" none, false)
    ∧ winByNodeId (setHash fixModelS "sw" none).details "sw"
        = some { fixSW with ordered_url_hash := none } :=
  (updateOrderedURLHash_never_stale fixModelS "sw" fixSW fixSWNode rfl
    (by decide) rfl).1 rfl


/-! ## C9: remove_unsaved_markers functional correctness -/

/-- Spec-side predicate for C9: the string contains a case-insensitive
occurrence of the literal `"(unsaved)"` at some position. -/
def containsUnsavedMarker : List Char → Bool
  | [] => false
  | c :: rest => (stripLit unsavedLit (c :: rest)).isSome || containsUnsavedMarker rest

theorem cum_cons (c : Char) (cs : List Char)
    (h : containsUnsavedMarker cs = true) :
    containsUnsavedMarker (c :: cs) = true := by
  simp [containsUnsavedMarker, h]

theorem cum_dropWhile (p : Char → Bool) (cs : List Char)
    (h : containsUnsavedMarker (cs.dropWhile p) = true) :
    containsUnsavedMarker cs = true := by
  induction cs with
  | nil => simpa using h
  | cons c cs ih =>
    rw [List.dropWhile_cons] at h
    by_cases hp : p c
    · rw [if_pos hp] at h
      exact cum_cons c cs (ih h)
    · rw [if_neg hp] at h
      exact h

theorem unsGroups_marker (fuel : Nat) (cs : List Char)
    (h : unsGroups fuel cs = true) : containsUnsavedMarker cs = true := by
  induction fuel generalizing cs with
  | zero => exact absurd h (by simp [unsGroups])
  | succ f ih =>
    rw [unsGroups] at h
    by_cases hsp : (cs.takeWhile isSpaceJS).isEmpty
    · rw [if_pos hsp] at h
      exact absurd h (by simp)
    · rw [if_neg hsp] at h
      cases hsl : stripLit unsavedLit (cs.dropWhile isSpaceJS) with
      | none =>
        rw [hsl] at h
        exact absurd h (by simp)
      | some rest2 =>
        apply cum_dropWhile isSpaceJS
        cases hr : cs.dropWhile isSpaceJS with
        | nil =>
          rw [hr] at hsl
          exact absurd hsl (by simp [stripLit, unsavedLit])
        | cons d ds =>
          simp only [containsUnsavedMarker, Bool.or_eq_true]
          left
          rw [← hr, hsl]
          rfl

theorem matchIndex_no_marker (cs : List Char)
    (h : containsUnsavedMarker cs = false) : matchIndex cs = none := by
  induction cs with
  | nil => rfl
  | cons c cs ih =>
    simp only [containsUnsavedMarker, Bool.or_eq_false_iff] at h
    obtain ⟨h1, h2⟩ := h
    rw [matchIndex, if_neg ?_, ih h2]
    · rfl
    · intro hm
      have hc := unsGroups_marker _ _ hm
      simp [containsUnsavedMarker, h1, h2] at hc

theorem rum_no_marker (s : String) (h : containsUnsavedMarker s.toList = false) :
    remove_unsaved_markers (some s) = some s := by
  simp only [remove_unsaved_markers]
  by_cases hs : s = ""
  · rw [if_pos hs]
  · rw [if_neg hs, matchIndex_no_marker _ h]

/-- **C9** trial. -/
theorem remove_unsaved_markers_spec :
    remove_unsaved_markers (some "Foo (Unsaved) (Unsaved)") = some "Foo"
    ∧ (∀ s : String, containsUnsavedMarker s.toList = false →
        remove_unsaved_markers (some s) = some s)
    ∧ remove_unsaved_markers none = none
    ∧ remove_unsaved_markers (some "") = some "" :=
  ⟨by decide, fun s h => rum_no_marker s h, rfl, rfl⟩

theorem remove_unsaved_markers_spec_witness :
    containsUnsavedMarker (String.toList "Foo bar") = false
    ∧ remove_unsaved_markers (some "Foo bar") = some "Foo bar" :=
  ⟨by decide, remove_unsaved_markers_spec.2.1 "Foo bar" (by decide)⟩

/-! ## C8: remember / mark_win_as_unsaved title discipline

Language-level lemmas about the unsaved-markers regular language
`(ws+ lit)+ ws*`, then the store-level effects of `remember` and
`mark_win_as_unsaved`, the counterexample to the original claim, and the
amended claim. -/

/-- The marker suffix `" (Unsaved)"` as a character list. -/
def unsavedSuffix : List Char :=
  [' ', '(', 'U', 'n', 's', 'a', 'v', 'e', 'd', ')']

theorem stripLit_length (ls : List Char) :
    ∀ cs r, stripLit ls cs = some r → r.length + ls.length = cs.length := by
  induction ls with
  | nil =>
    intro cs r h
    simp only [stripLit] at h
    cases h
    simp
  | cons l ls ih =>
    intro cs r h
    cases cs with
    | nil => exact absurd h (by simp [stripLit])
    | cons c cs =>
      simp only [stripLit] at h
      by_cases hc : c.toLower = l
      · rw [if_pos hc] at h
        have := ih cs r h
        simp [List.length_cons]
        omega
      · rw [if_neg hc] at h
        exact absurd h (by simp)

theorem stripLit_append (ls : List Char) :
    ∀ cs r b, stripLit ls cs = some r → stripLit ls (cs ++ b) = some (r ++ b) := by
  induction ls with
  | nil =>
    intro cs r b h
    simp only [stripLit] at h ⊢
    cases h
    rfl
  | cons l ls ih =>
    intro cs r b h
    cases cs with
    | nil => exact absurd h (by simp [stripLit])
    | cons c cs =>
      simp only [stripLit] at h ⊢
      by_cases hc : c.toLower = l
      · rw [if_pos hc] at h ⊢
        exact ih cs r b h
      · rw [if_neg hc] at h
        exact absurd h (by simp)

theorem stripLit_mem (ls : List Char) :
    ∀ cs r, stripLit ls cs = some r →
      ∀ c ∈ cs, c ∈ r ∨ c.toLower ∈ ls := by
  induction ls with
  | nil =>
    intro cs r h c hc
    simp only [stripLit] at h
    cases h
    exact Or.inl hc
  | cons l ls ih =>
    intro cs r h c hc
    cases cs with
    | nil => exact absurd h (by simp [stripLit])
    | cons d ds =>
      simp only [stripLit] at h
      by_cases hd : d.toLower = l
      · rw [if_pos hd] at h
        rcases List.mem_cons.mp hc with he | hm
        · subst he
          exact Or.inr (by rw [hd]; exact List.mem_cons_self l ls)
        · rcases ih ds r h c hm with h1 | h1
          · exact Or.inl h1
          · exact Or.inr (List.mem_cons_of_mem l h1)
      · rw [if_neg hd] at h
        exact absurd h (by simp)

theorem dropWhile_head_false (p : Char → Bool) :
    ∀ (l : List Char) c cs, l.dropWhile p = c :: cs → p c = false := by
  intro l
  induction l with
  | nil => intro c cs h; exact absurd h (by simp)
  | cons a t ih =>
    intro c cs h
    rw [List.dropWhile_cons] at h
    by_cases ha : p a
    · rw [if_pos ha] at h
      exact ih c cs h
    · rw [if_neg ha] at h
      cases h
      simpa using ha

theorem tw_append (p : Char → Bool) :
    ∀ (l r : List Char), l.dropWhile p ≠ [] →
      (l ++ r).takeWhile p = l.takeWhile p
      ∧ (l ++ r).dropWhile p = l.dropWhile p ++ r := by
  intro l
  induction l with
  | nil => intro r h; exact absurd rfl h
  | cons a t ih =>
    intro r h
    rw [List.dropWhile_cons] at h
    by_cases ha : p a
    · rw [if_pos ha] at h
      obtain ⟨h1, h2⟩ := ih r h
      constructor
      · simp [List.takeWhile_cons, ha, h1]
      · simp [List.dropWhile_cons, ha, h2]
    · constructor
      · simp [List.takeWhile_cons, ha]
      · simp [List.dropWhile_cons, ha]

theorem ws_append (p : Char → Bool) :
    ∀ (w b : List Char), w.all p = true →
      (w ++ b).takeWhile p = w ++ b.takeWhile p
      ∧ (w ++ b).dropWhile p = b.dropWhile p := by
  intro w
  induction w with
  | nil => intro b _; simp
  | cons a t ih =>
    intro b hall
    simp only [List.all_cons, Bool.and_eq_true] at hall
    obtain ⟨ha, ht⟩ := hall
    obtain ⟨h1, h2⟩ := ih b ht
    constructor
    · simp only [List.cons_append, List.takeWhile_cons, if_pos ha, h1]
    · simp only [List.cons_append, List.dropWhile_cons, if_pos ha, h2]



theorem unsGroups_fuel : ∀ f cs, unsGroups f cs = true →
    ∀ g, cs.length < g → unsGroups g cs = true := by
  intro f
  induction f with
  | zero => intro cs h; exact absurd h (by simp [unsGroups])
  | succ f ih =>
    intro cs h g hg
    rw [unsGroups] at h
    by_cases hsp : (cs.takeWhile isSpaceJS).isEmpty
    · rw [if_pos hsp] at h; exact absurd h (by simp)
    · rw [if_neg hsp] at h
      cases hsl : stripLit unsavedLit (cs.dropWhile isSpaceJS) with
      | none => rw [hsl] at h; exact absurd h (by simp)
      | some rest2 =>
        simp only [hsl] at h
        cases g with
        | zero => omega
        | succ g' =>
          rw [unsGroups, if_neg hsp]
          simp only [hsl]
          rcases Bool.or_eq_true _ _ ▸ h with h1 | h1
          · rw [h1]; rfl
          · have hlen : rest2.length + 10 ≤ cs.length := by
              have hsplen := stripLit_length unsavedLit _ _ hsl
              have hcs := congrArg List.length
                (List.takeWhile_append_dropWhile (p := isSpaceJS) (l := cs))
              rw [List.length_append] at hcs
              have hsp1 : 1 ≤ (cs.takeWhile isSpaceJS).length := by
                rcases he : cs.takeWhile isSpaceJS with _ | ⟨d, ds⟩
                · rw [he] at hsp; simp at hsp
                · simp
              simp [unsavedLit] at hsplen
              omega
            have := ih rest2 h1 g' (by omega)
            rw [this]
            simp

theorem ws_groups (w b : List Char) (f : Nat) (hw : w.all isSpaceJS = true)
    (h : unsGroups (f + 1) b = true) : unsGroups (f + 1) (w ++ b) = true := by
  obtain ⟨htw, hdw⟩ := ws_append isSpaceJS w b hw
  rw [unsGroups] at h ⊢
  rw [htw, hdw]
  by_cases hsp : (b.takeWhile isSpaceJS).isEmpty
  · rw [if_pos hsp] at h; exact absurd h (by simp)
  · rw [if_neg hsp] at h
    have : (w ++ b.takeWhile isSpaceJS).isEmpty = false := by
      rcases he : b.takeWhile isSpaceJS with _ | ⟨d, ds⟩
      · rw [he] at hsp; simp at hsp
      · simp
    rw [this]
    simp only [Bool.false_eq_true, if_false]
    exact h

theorem unsGroups_concat : ∀ f a b, unsGroups f a = true →
    unsMatch b = true → unsMatch (a ++ b) = true := by
  intro f
  induction f with
  | zero => intro a b h; exact absurd h (by simp [unsGroups])
  | succ f ih =>
    intro a b h hb
    rw [unsGroups] at h
    by_cases hsp : (a.takeWhile isSpaceJS).isEmpty
    · rw [if_pos hsp] at h; exact absurd h (by simp)
    · rw [if_neg hsp] at h
      cases hsl : stripLit unsavedLit (a.dropWhile isSpaceJS) with
      | none => rw [hsl] at h; exact absurd h (by simp)
      | some rest2 =>
        simp only [hsl] at h
        have hdne : a.dropWhile isSpaceJS ≠ [] := by
          intro he
          rw [he] at hsl
          exact absurd hsl (by simp [stripLit, unsavedLit])
        obtain ⟨htw, hdw⟩ := tw_append isSpaceJS a b hdne
        have hlen : rest2.length + 10 ≤ a.length := by
          have hsplen := stripLit_length unsavedLit _ _ hsl
          have hcs := congrArg List.length
            (List.takeWhile_append_dropWhile (p := isSpaceJS) (l := a))
          rw [List.length_append] at hcs
          have hsp1 : 1 ≤ (a.takeWhile isSpaceJS).length := by
            rcases he : a.takeWhile isSpaceJS with _ | ⟨d, ds⟩
            · rw [he] at hsp; simp at hsp
            · simp
          simp [unsavedLit] at hsplen
          omega
        rw [unsMatch]
        have hlab : (a ++ b).length = a.length + b.length := by simp
        rw [hlab]
        rw [unsGroups, htw, hdw]
        rw [if_neg hsp]
        simp only [stripLit_append unsavedLit _ _ b hsl]
        have htail : unsGroups (a.length + b.length) (rest2 ++ b) = true := by
          rcases Bool.or_eq_true _ _ ▸ h with h1 | h1
          · have hbm : unsGroups (b.length + 1) b = true := hb
            have hwb : unsGroups (b.length + 1) (rest2 ++ b) = true :=
              ws_groups rest2 b b.length h1 hbm
            refine unsGroups_fuel _ _ hwb _ ?_
            simp
            omega
          · have hrb : unsMatch (rest2 ++ b) = true := ih rest2 b h1 hb
            rw [unsMatch] at hrb
            refine unsGroups_fuel _ _ hrb _ ?_
            simp
            omega
        rw [htail]
        simp



theorem unsMatch_nil : unsMatch [] = false := rfl

theorem matchIndex_spec : ∀ (cs : List Char) i, matchIndex cs = some i →
    unsMatch (cs.drop i) = true ∧ ∀ j, j < i → unsMatch (cs.drop j) = false := by
  intro cs
  induction cs with
  | nil => intro i h; exact absurd h (by simp [matchIndex])
  | cons c cs ih =>
    intro i h
    rw [matchIndex] at h
    by_cases hm : unsMatch (c :: cs) = true
    · rw [if_pos hm] at h
      cases h
      exact ⟨hm, fun j hj => absurd hj (by omega)⟩
    · rw [if_neg hm] at h
      rw [Bool.not_eq_true] at hm
      obtain ⟨i', hi', hii⟩ := Option.map_eq_some'.mp h
      obtain ⟨h1, h2⟩ := ih i' hi'
      subst hii
      refine ⟨by simpa using h1, ?_⟩
      intro j hj
      cases j with
      | zero => simpa using hm
      | succ j' =>
        rw [List.drop_succ_cons]
        exact h2 j' (by omega)

theorem matchIndex_lt (cs : List Char) (i : Nat) (h : matchIndex cs = some i) :
    i < cs.length := by
  by_contra hge
  have h1 := (matchIndex_spec cs i h).1
  rw [List.drop_eq_nil_of_le (by omega)] at h1
  exact absurd h1 (by simp [unsMatch_nil])

theorem drop_match_isSome : ∀ (cs : List Char) i,
    unsMatch (cs.drop i) = true → (matchIndex cs).isSome = true := by
  intro cs
  induction cs with
  | nil =>
    intro i h
    rw [List.drop_nil] at h
    exact absurd h (by simp [unsMatch_nil])
  | cons c cs ih =>
    intro i h
    rw [matchIndex]
    by_cases hm : unsMatch (c :: cs) = true
    · rw [if_pos hm]; rfl
    · rw [if_neg hm]
      cases i with
      | zero => exact absurd h hm
      | succ i' =>
        rw [List.drop_succ_cons] at h
        obtain ⟨v, hv⟩ := Option.isSome_iff_exists.mp (ih i' h)
        rw [hv]
        rfl

theorem matchIndex_zero (cs : List Char) (h : matchIndex cs = some 0) :
    unsMatch cs = true := by
  cases cs with
  | nil => exact absurd h (by simp [matchIndex])
  | cons c cs =>
    rw [matchIndex] at h
    by_cases hm : unsMatch (c :: cs) = true
    · exact hm
    · rw [if_neg hm] at h
      obtain ⟨i', _, hii⟩ := Option.map_eq_some'.mp h
      omega

theorem unsGroups_chars : ∀ f cs, unsGroups f cs = true →
    ∀ c ∈ cs, isSpaceJS c = true ∨ c.toLower ∈ unsavedLit := by
  intro f
  induction f with
  | zero => intro cs h; exact absurd h (by simp [unsGroups])
  | succ f ih =>
    intro cs h c hc
    rw [unsGroups] at h
    by_cases hsp : (cs.takeWhile isSpaceJS).isEmpty
    · rw [if_pos hsp] at h; exact absurd h (by simp)
    · rw [if_neg hsp] at h
      cases hsl : stripLit unsavedLit (cs.dropWhile isSpaceJS) with
      | none => rw [hsl] at h; exact absurd h (by simp)
      | some rest2 =>
        simp only [hsl] at h
        rw [← List.takeWhile_append_dropWhile (p := isSpaceJS) (l := cs)] at hc
        rcases List.mem_append.mp hc with hc1 | hc1
        · exact Or.inl (List.mem_takeWhile_imp hc1)
        · rcases stripLit_mem unsavedLit _ _ hsl c hc1 with hc2 | hc2
          · rcases Bool.or_eq_true _ _ ▸ h with h1 | h1
            · exact Or.inl (by
                rw [List.all_eq_true] at h1
                exact h1 c hc2)
            · exact ih rest2 h1 c hc2
          · exact Or.inr hc2



theorem unsMatch_suffix : unsMatch unsavedSuffix = true := by decide

theorem rum_toList (cs : List Char) : (String.mk cs).toList = cs := rfl

theorem rumStr_of_none (t : String) (h : matchIndex t.toList = none) :
    rumStr t = t := by
  rw [rumStr]
  by_cases ht : t = ""
  · subst ht; rfl
  · have he : remove_unsaved_markers (some t) = some t := by
      simp only [remove_unsaved_markers]
      rw [if_neg ht, h]
    rw [he]

theorem rumStr_of_zero (t : String) (h : matchIndex t.toList = some 0) :
    rumStr t = t := by
  rw [rumStr]
  by_cases ht : t = ""
  · subst ht; rfl
  · have he : remove_unsaved_markers (some t) = some t := by
      simp only [remove_unsaved_markers]
      rw [if_neg ht, h]
      show (if 0 < 0 then some (String.mk (t.toList.take 0)) else some t)
          = some t
      rw [if_neg (lt_irrefl 0)]
    rw [he]

theorem rumStr_of_pos (t : String) (i : Nat) (h : matchIndex t.toList = some i)
    (hi : 0 < i) : rumStr t = String.mk (t.toList.take i) := by
  have ht : t ≠ "" := by
    intro he
    subst he
    exact absurd h (by simp [matchIndex])
  have he : remove_unsaved_markers (some t)
      = some (String.mk (t.toList.take i)) := by
    simp only [remove_unsaved_markers]
    rw [if_neg ht, h]
    show (if 0 < i then some (String.mk (t.toList.take i)) else some t)
        = some (String.mk (t.toList.take i))
    rw [if_pos hi]
  rw [rumStr, he]

theorem rum_no_match (t : String) (h0 : matchIndex t.toList ≠ some 0) :
    matchIndex (rumStr t).toList = none := by
  cases hmi : matchIndex t.toList with
  | none => rw [rumStr_of_none t hmi, hmi]
  | some i =>
      have hi : 0 < i := by
        rcases Nat.eq_zero_or_pos i with h | h
        · exact absurd (h ▸ hmi) h0
        · exact h
      rw [rumStr_of_pos t i hmi hi, rum_toList]
      cases hmx : matchIndex (t.toList.take i) with
      | none => rfl
      | some j =>
        exfalso
        obtain ⟨hj1, _⟩ := matchIndex_spec _ j hmx
        have hjlt : j < i := by
          have := matchIndex_lt _ j hmx
          have hle : (t.toList.take i).length ≤ i := by simp
          omega
        have hileni : i < t.toList.length := matchIndex_lt _ i hmi
        have hdi : unsMatch (t.toList.drop i) = true := (matchIndex_spec _ i hmi).1
        have hsplit : t.toList.drop j
            = (t.toList.take i).drop j ++ t.toList.drop i := by
          conv_lhs => rw [← List.take_append_drop i t.toList]
          rw [List.drop_append_of_le_length]
          rw [List.length_take]
          omega
        have hdj : unsMatch (t.toList.drop j) = true := by
          rw [hsplit]
          exact unsGroups_concat _ _ _ hj1 hdi
        have := (matchIndex_spec _ i hmi).2 j hjlt
        rw [this] at hdj
        exact Bool.noConfusion hdj

theorem no_match_no_suffix (r : List Char) (h : matchIndex r = none) :
    ∀ u, r ≠ u ++ unsavedSuffix := by
  intro u he
  have hm : unsMatch (r.drop u.length) = true := by
    rw [he, List.drop_left]
    exact unsMatch_suffix
  have := drop_match_isSome r u.length hm
  rw [h] at this
  exact Bool.noConfusion this

/-- Spec-side predicate: a character that can appear in no match of the
unsaved-markers regex (neither whitespace nor part of a case-insensitive
occurrence of the literal). -/
def plainChar (c : Char) : Bool :=
  !(isSpaceJS c) && !(decide (c.toLower ∈ unsavedLit))

def hasPlainChar (s : String) : Bool := s.toList.any plainChar

theorem plain_no_match (cs : List Char) (hp : cs.any plainChar = true) :
    unsMatch cs = false := by
  by_contra hm
  rw [Bool.not_eq_false] at hm
  obtain ⟨c, hc, hpc⟩ := List.any_eq_true.mp hp
  rcases unsGroups_chars _ cs hm c hc with h1 | h1
  · simp [plainChar, h1] at hpc
  · simp [plainChar, h1] at hpc

theorem plain_not_zero (t : String) (hp : hasPlainChar t = true) :
    matchIndex t.toList ≠ some 0 := by
  intro h0
  have := matchIndex_zero t.toList h0
  rw [plain_no_match t.toList hp] at this
  exact Bool.noConfusion this

theorem plain_preserved (t : String) (hp : hasPlainChar t = true) :
    hasPlainChar (rumStr t) = true := by
  cases hmi : matchIndex t.toList with
  | none => rw [rumStr_of_none t hmi]; exact hp
  | some i =>
      by_cases hi : 0 < i
      · rw [rumStr_of_pos t i hmi hi]
        show (String.mk (t.toList.take i)).toList.any plainChar = true
        rw [rum_toList]
        have hdi : unsMatch (t.toList.drop i) = true := (matchIndex_spec _ i hmi).1
        have hdrop : (t.toList.drop i).any plainChar = false := by
          rw [List.any_eq_false]
          intro c hc
          intro hpc
          rcases unsGroups_chars _ _ hdi c hc with h1 | h1
          · simp [plainChar, h1] at hpc
          · simp [plainChar, h1] at hpc
        have := hp
        rw [hasPlainChar] at this
        conv at this => rw [← List.take_append_drop i t.toList]
        rw [List.any_append, hdrop, Bool.or_false] at this
        exact this
      · have hz : i = 0 := by omega
        subst hz
        rw [rumStr_of_zero t hmi]
        exact hp



/-- The new title computed by `mark_win_as_unsaved` for a window whose
`raw_title` is the custom title `t`. -/
def titleAfterMark (t : String) : String := rumStr t ++ " (Unsaved)"

theorem marker_toList : (" (Unsaved)" : String).toList = unsavedSuffix := rfl

theorem titleAfterMark_toList (t : String) :
    (titleAfterMark t).toList = (rumStr t).toList ++ unsavedSuffix := by
  rw [titleAfterMark]
  show (rumStr t ++ " (Unsaved)").data = (rumStr t).data ++ unsavedSuffix
  rw [String.data_append]
  rfl

theorem endsOne (t : String) (h0 : matchIndex t.toList ≠ some 0) :
    (∃ u, (titleAfterMark t).toList = u ++ unsavedSuffix)
    ∧ ∀ u, (titleAfterMark t).toList ≠ u ++ (unsavedSuffix ++ unsavedSuffix) := by
  constructor
  · exact ⟨(rumStr t).toList, titleAfterMark_toList t⟩
  · intro u he
    rw [titleAfterMark_toList] at he
    have h2 : (rumStr t).toList ++ unsavedSuffix
        = (u ++ unsavedSuffix) ++ unsavedSuffix := by
      rw [he, List.append_assoc]
    have h3 : (rumStr t).toList = u ++ unsavedSuffix :=
      List.append_cancel_right h2
    exact no_match_no_suffix _ (rum_no_match t h0) u h3

theorem hasPlain_titleAfterMark (t : String) (hp : hasPlainChar t = true) :
    hasPlainChar (titleAfterMark t) = true := by
  rw [hasPlainChar, titleAfterMark_toList, List.any_append]
  have hr := plain_preserved t hp
  rw [hasPlainChar] at hr
  rw [hr]
  rfl

theorem mark_iterate (t : String) (hp : hasPlainChar t = true) : ∀ n,
    (∃ u, (titleAfterMark^[n + 1] t).toList = u ++ unsavedSuffix)
    ∧ ∀ u, (titleAfterMark^[n + 1] t).toList
        ≠ u ++ (unsavedSuffix ++ unsavedSuffix) := by
  have hiter : ∀ n, hasPlainChar (titleAfterMark^[n] t) = true := by
    intro n
    induction n with
    | zero => simpa using hp
    | succ k ih =>
      rw [Function.iterate_succ_apply']
      exact hasPlain_titleAfterMark _ ih
  intro n
  rw [Function.iterate_succ_apply']
  exact endsOne _ (plain_not_zero _ (hiter n))



theorem remember_effect (m : Model) (nid : NodeId) (val : WinVal)
    (hnid : nid ≠ "") (hw : winByNodeId m.details nid = some val) :
    (remember m nid true).2 = true
    ∧ winByNodeId (remember m nid true).1.details nid
        = some { val with
                 keep := some true,
                 raw_title :=
                   some (rumStr (get_win_raw_text { val with keep := some true })) } := by
  unfold remember
  rw [if_neg hnid]
  simp only [hw]
  refine ⟨by trivial, ?_⟩
  rw [refresh_icon_details, refresh_label_details]
  show winByNodeId (winsSet (winsSet m.details nid _) nid _) nid = _
  rw [winByNodeId_winsSet_self]
  · rw [winByNodeId_winsSet_self]
    · rw [hw]
      rfl
    · intro x; rfl
  · intro x; rfl

theorem mark_win_as_unsaved_effect (m : Model) (val : WinVal) (t : String)
    (hnid : val.node_id ≠ "")
    (hw : winByNodeId m.details val.node_id = some val)
    (ht : val.raw_title = some t) :
    (mark_win_as_unsaved m (some (Sum.inl val)) true).2 = true
    ∧ winByNodeId
        (mark_win_as_unsaved m (some (Sum.inl val)) true).1.details val.node_id
        = some { val with
                 keep := some false,
                 raw_title := some (titleAfterMark t) } := by
  simp only [mark_win_as_unsaved]
  rw [if_neg hnid]
  refine ⟨by trivial, ?_⟩
  rw [refresh_icon_details, refresh_label_details]
  rw [if_pos (by simp [ht])]
  show winByNodeId (winsSet (winsSet m.details val.node_id _) val.node_id _)
      val.node_id = _
  rw [winByNodeId_winsSet_self]
  · rw [winByNodeId_winsSet_self]
    · rw [hw, ht]
      rfl
    · intro x; rfl
  · intro x; rfl



def fixWU : WinVal :=
  { win_id := NONE, node_id := "wu", win := none,
    raw_title := some " (Unsaved)", raw_bullet := none, isOpen := false,
    keep := some true, ordered_url_hash := none }

def fixWUNode : TreeNode :=
  { id := "wu", parent := "#", children := [], text := " (Unsaved)",
    icon := none, multitypes := ["win", "saved"], opened := false }

def fixWURoot : TreeNode :=
  { id := "#", parent := "", children := ["wu"], text := "",
    icon := none, multitypes := [], opened := true }

def fixModelWU : Model :=
  { tree := { nodes := [fixWURoot, fixWUNode], counter := 2 },
    details := { windows := [fixWU], tabs := [] } }

/-- **C8** counterexample: on the saved window whose custom title is
exactly `" (Unsaved)"`, `mark_win_as_unsaved` produces the title
`" (Unsaved) (Unsaved)"`, which ends with two marker suffixes, because
`remove_unsaved_markers` refuses to strip a match starting at index 0. -/
theorem mark_win_as_unsaved_counterexample :
    (mark_win_as_unsaved fixModelWU (some (Sum.inl fixWU)) true).2 = true
    ∧ winByNodeId
        (mark_win_as_unsaved fixModelWU (some (Sum.inl fixWU)) true).1.details
        "wu"
        = some { fixWU with
                 keep := some false,
                 raw_title := some " (Unsaved) (Unsaved)" }
    ∧ String.toList " (Unsaved) (Unsaved)" = unsavedSuffix ++ unsavedSuffix :=
  ⟨rfl, rfl, rfl⟩

/-- **C8** (amended): for a resolvable window record, `remember` sets
`keep := true` and replaces the title by its unsaved-marker strip; the
strip leaves no marker match at all (in particular no trailing marker
suffix) whenever the original match does not start at index 0;
`mark_win_as_unsaved` sets `keep := false` and, for a custom title whose
marker match does not start at index 0, the new title ends with exactly
one `" (Unsaved)"` suffix; and repeated marking of a title containing a
plain character (neither whitespace nor part of a case-insensitive
`"(unsaved)"` occurrence) never accumulates a second suffix. -/
theorem remember_mark_unsaved_titles (m : Model) (nid : NodeId) (val : WinVal)
    (hnid : nid ≠ "") (hvid : val.node_id = nid)
    (hw : winByNodeId m.details nid = some val) :
    ((remember m nid true).2 = true
      ∧ winByNodeId (remember m nid true).1.details nid
          = some { val with
                   keep := some true,
                   raw_title :=
                     some (rumStr (get_win_raw_text
                       { val with keep := some true })) })
    ∧ (∀ t : String, matchIndex t.toList ≠ some 0 →
        matchIndex (rumStr t).toList = none
        ∧ ∀ u, (rumStr t).toList ≠ u ++ unsavedSuffix)
    ∧ (∀ t, val.raw_title = some t →
        (mark_win_as_unsaved m (some (Sum.inl val)) true).2 = true
        ∧ winByNodeId
            (mark_win_as_unsaved m (some (Sum.inl val)) true).1.details nid
            = some { val with
                     keep := some false,
                     raw_title := some (titleAfterMark t) }
        ∧ (∃ u, (titleAfterMark t).toList = u ++ unsavedSuffix)
        ∧ (matchIndex t.toList ≠ some 0 →
            ∀ u, (titleAfterMark t).toList
              ≠ u ++ (unsavedSuffix ++ unsavedSuffix)))
    ∧ (∀ (t : String) (n : Nat), hasPlainChar t = true →
        (∃ u, (titleAfterMark^[n + 1] t).toList = u ++ unsavedSuffix)
        ∧ ∀ u, (titleAfterMark^[n + 1] t).toList
            ≠ u ++ (unsavedSuffix ++ unsavedSuffix)) := by
  subst hvid
  refine ⟨remember_effect m val.node_id val hnid hw, ?_, ?_, ?_⟩
  · intro t h0
    exact ⟨rum_no_match t h0, no_match_no_suffix _ (rum_no_match t h0)⟩
  · intro t ht
    have heff := mark_win_as_unsaved_effect m val t hnid hw ht
    refine ⟨heff.1, heff.2, ⟨(rumStr t).toList, titleAfterMark_toList t⟩, ?_⟩
    intro h0
    exact (endsOne t h0).2
  · intro t n hp
    exact mark_iterate t hp n

theorem remember_mark_unsaved_titles_witness :
    (remember fixModel "w1" true).2 = true
    ∧ (mark_win_as_unsaved fixModel (some (Sum.inl fixW1)) true).2 = true
    ∧ (∃ u, (titleAfterMark "Foo").toList = u ++ unsavedSuffix) :=
  ⟨(remember_mark_unsaved_titles fixModel "w1" fixW1 (by decide) rfl rfl).1.1,
   ((remember_mark_unsaved_titles fixModel "w1" fixW1 (by decide) rfl
      rfl).2.2.1 "Foo" rfl).1,
   ((remember_mark_unsaved_titles fixModel "w1" fixW1 (by decide) rfl
      rfl).2.2.1 "Foo" rfl).2.2.1⟩

end TabFern
